import Mathlib

/-!
Verification of the Leader-Worker task orchestration engine
(repository `sunny-boy-fqy/ai`, core sources
`src/tools/core/task_manager.py` and `src/tools/core/leader_worker.py`,
plus the tool-call loop of `src/ai_caller.py`).

The Python code is shallowly embedded: every mutating method of
`TaskManager` becomes a pure function on a `TasksData` state, the
scheduler and the parallel dispatcher become functions parameterised by
the worker outcomes (an oracle), and wall-clock timestamps become
explicit `String` arguments (Python calls `datetime.now()` at each use
site).  Persistence (`_save_tasks` writing `tasks.json`) is modelled by
the in-memory document itself: saving recomputes `updated_at` and the
derived statistics exactly as the source does; the file write has no
further observable effect on the data model.

Python `dict`s keyed by strings are modelled as association lists:
insertion-or-overwrite for plain dict assignment, last-binding-wins for
dict comprehensions, and first-match for the linear searches the source
performs over the task list.  Python `set`s of task ids are modelled as
lists considered up to membership.
-/

namespace LeaderWorker

/-- One entry of a task's append-only `notes` list. -/
structure Note where
  timestamp : String
  author : String
  content : String
deriving Repr, DecidableEq

/-- A task record, with exactly the fields `TaskManager.create_task`
puts into the dictionary.  Timestamps are `Option String` because the
source initialises them to `None`. -/
structure Task where
  id : String
  title : String
  description : String
  type : String
  priority : Int
  status : String
  dependencies : List String
  assigned_to : Option String
  created_at : String
  started_at : Option String
  completed_at : Option String
  files_to_modify : List String
  acceptance_criteria : List String
  result_summary : Option String
  error_log : Option String
  git_commit : Option String
  notes : List Note
deriving Repr, DecidableEq

/-- The derived `statistics` block of `tasks.json`. -/
structure Statistics where
  total : Nat
  pending : Nat
  in_progress : Nat
  completed : Nat
  failed : Nat
deriving Repr, DecidableEq

/-- The whole `tasks.json` document (`TaskManager.tasks_data`). -/
structure TasksData where
  project_name : String
  created_at : String
  updated_at : String
  status : String
  current_task : Option String
  tasks : List Task
  statistics : Statistics
deriving Repr, DecidableEq

/-- `TaskManager._create_empty_tasks` (the `project_name` and creation
timestamp are passed in; the source derives them from the directory and
`datetime.now()`). -/
def createEmptyTasks (projectName now : String) : TasksData :=
  { project_name := projectName
    created_at := now
    updated_at := now
    status := "idle"
    current_task := none
    tasks := []
    statistics := { total := 0, pending := 0, in_progress := 0, completed := 0, failed := 0 } }

/-- Count of tasks in `ts` whose `status` equals `s`
(the `sum(1 for t in tasks if t.get("status") == s)` pattern). -/
def countStatus (ts : List Task) (s : String) : Nat :=
  (ts.filter (fun t => t.status = s)).length

/-- `TaskManager._update_statistics`: recompute the statistics block
from the task list. -/
def computeStats (ts : List Task) : Statistics :=
  { total := ts.length
    pending := countStatus ts "pending"
    in_progress := countStatus ts "in_progress"
    completed := countStatus ts "completed"
    failed := countStatus ts "failed" }

/-- `TaskManager._save_tasks`: stamp `updated_at`, recompute statistics
(and write the JSON file, which the model elides). -/
def saveTasks (now : String) (d : TasksData) : TasksData :=
  { d with updated_at := now, statistics := computeStats d.tasks }

/-- Big-endian decimal digit characters of `n`, accumulator style; the
fuel only bounds the recursion (one division by ten per step, so any
fuel at least `n` suffices for positive `n`). -/
def decStrGo : Nat → Nat → List Char → List Char
  | 0, _, acc => acc
  | fuel + 1, n, acc =>
      if n < 10 then Nat.digitChar (n % 10) :: acc
      else decStrGo fuel (n / 10) (Nat.digitChar (n % 10) :: acc)

/-- Decimal rendering of a natural number, as Python's f-string does for
the `len(...) + 1` suffix of a task id (`decStr 123 = "123"`). -/
def decStr (n : Nat) : String :=
  String.mk (decStrGo (n + 1) n [])

/-- Python's `needle in haystack` on strings (contiguous substring). -/
def strContains (haystack needle : String) : Bool :=
  haystack.data.tails.any (fun t => needle.data.isPrefixOf t)

/-- `s.startswith(pre)`. -/
def strStartsWith (s pre : String) : Bool :=
  pre.data.isPrefixOf s.data

/-- Python's `s[:n]` character slice. -/
def strTake (s : String) (n : Nat) : String :=
  String.mk (s.data.take n)

/-- ASCII lowercasing, modelling Python's `str.lower()` (the retry
keywords it is compared against are all ASCII). -/
def asciiLower (s : String) : String :=
  String.mk (s.data.map (fun c =>
    if 65 ≤ c.toNat ∧ c.toNat ≤ 90 then Char.ofNat (c.toNat + 32) else c))

/-- The id `f"task_{datetime.now().strftime('%Y%m%d%H%M%S')}_{len(self.tasks_data['tasks']) + 1}"`
generated by `create_task`; `nowCompact` is the 14-digit timestamp. -/
def mkTaskId (nowCompact : String) (n : Nat) : String :=
  "task_" ++ nowCompact ++ "_" ++ decStr n

/-- `TaskManager.create_task`.  `nowCompact` is `strftime('%Y%m%d%H%M%S')`
and `nowIso` is `isoformat()`, both taken at the call.  Returns the
created task together with the new state. -/
def createTask (nowCompact nowIso : String) (title description taskType : String)
    (priority : Int) (dependencies files acceptance : List String)
    (d : TasksData) : Task × TasksData :=
  let t : Task :=
    { id := mkTaskId nowCompact (d.tasks.length + 1)
      title := title
      description := description
      type := taskType
      priority := priority
      status := "pending"
      dependencies := dependencies
      assigned_to := none
      created_at := nowIso
      started_at := none
      completed_at := none
      files_to_modify := files
      acceptance_criteria := acceptance
      result_summary := none
      error_log := none
      git_commit := none
      notes := [] }
  (t, saveTasks nowIso { d with tasks := d.tasks ++ [t] })

/-- `TaskManager.get_task`: first task with the given id. -/
def getTask (d : TasksData) (taskId : String) : Option Task :=
  d.tasks.find? (fun t => t.id = taskId)

/-- The `**kwargs` that `set_task_status` can pass to `update_task`
(`None` fields are keys that are absent from the kwargs). -/
structure TaskUpdates where
  status : Option String := none
  started_at : Option String := none
  completed_at : Option String := none
  result_summary : Option String := none
  error_log : Option String := none
deriving Repr, DecidableEq

/-- Apply the present kwargs to a task (`for key, value in kwargs.items():
if key in task: task[key] = value`; all five keys exist in every task). -/
def applyUpdates (u : TaskUpdates) (t : Task) : Task :=
  { t with
    status := u.status.getD t.status
    started_at := match u.started_at with | some v => some v | none => t.started_at
    completed_at := match u.completed_at with | some v => some v | none => t.completed_at
    result_summary := match u.result_summary with | some v => some v | none => t.result_summary
    error_log := match u.error_log with | some v => some v | none => t.error_log }

/-- Replace the first list element satisfying `p` by its image under `f`
(Python mutates the aliased dict returned by `get_task`, i.e. the first
match in the list). -/
def updateFirst (p : Task → Bool) (f : Task → Task) : List Task → List Task
  | [] => []
  | t :: ts => if p t then f t :: ts else t :: updateFirst p f ts

/-- `TaskManager.update_task`: `False` (state unchanged, no save) when
the id is unknown, otherwise mutate the first matching task and save. -/
def updateTask (now : String) (d : TasksData) (taskId : String) (u : TaskUpdates) :
    Bool × TasksData :=
  match getTask d taskId with
  | none => (false, d)
  | some _ =>
      (true, saveTasks now { d with tasks := updateFirst (fun t => t.id = taskId) (applyUpdates u) d.tasks })

/-- `TaskManager.set_task_status`: build the kwargs exactly as the
source does (Python's `if result:` / `if error:` truthiness makes the
empty string behave like `None`). -/
def statusUpdates (now status : String) (result error : Option String) : TaskUpdates :=
  { status := some status
    started_at := if status = "in_progress" then some now else none
    completed_at := if status = "completed" ∨ status = "failed" then some now else none
    result_summary :=
      if status = "completed" then
        match result with
        | some r => if r = "" then none else some r
        | none => none
      else none
    error_log :=
      if status = "failed" then
        match error with
        | some e => if e = "" then none else some e
        | none => none
      else none }

/-- `TaskManager.set_task_status`. -/
def setTaskStatus (now : String) (d : TasksData) (taskId status : String)
    (result error : Option String) : Bool × TasksData :=
  updateTask now d taskId (statusUpdates now status result error)

/-- `TaskManager.add_note`. -/
def addNote (now : String) (d : TasksData) (taskId note author : String) :
    Bool × TasksData :=
  match getTask d taskId with
  | none => (false, d)
  | some _ =>
      (true, saveTasks now
        { d with tasks := (updateFirst (fun t => t.id = taskId)
            (fun t => { t with notes := t.notes ++ [⟨now, author, note⟩] })
            d.tasks) })

/-- `TaskManager.clear_completed_tasks`. -/
def clearCompletedTasks (now : String) (d : TasksData) : TasksData :=
  saveTasks now { d with tasks := d.tasks.filter (fun t => t.status ≠ "completed") }

/-- `TaskManager.reset_all_tasks`. -/
def resetAllTasks (now : String) (d : TasksData) : TasksData :=
  saveTasks now
    { d with tasks := d.tasks.map (fun t =>
        { t with status := "pending", started_at := none, completed_at := none, assigned_to := none }) }

/-- `TaskManager.set_project_status`. -/
def setProjectStatus (now : String) (d : TasksData) (s : String) : TasksData :=
  saveTasks now { d with status := s }

/-- One `TaskManager` mutation, carrying the timestamp strings the
source would draw from `datetime.now()` at that call. -/
inductive Op where
  | create (nowCompact nowIso : String) (title description taskType : String)
      (priority : Int) (dependencies files acceptance : List String)
  | update (now taskId : String) (u : TaskUpdates)
  | setStatus (now taskId status : String) (result error : Option String)
  | note (now taskId text author : String)
  | clear (now : String)
  | reset (now : String)
  | setProject (now status : String)
deriving Repr, DecidableEq

/-- Apply one mutation to the store. -/
def applyOp (op : Op) (d : TasksData) : TasksData :=
  match op with
  | .create nc ni ti de ty pr dep fi ac => (createTask nc ni ti de ty pr dep fi ac d).2
  | .update now tid u => (updateTask now d tid u).2
  | .setStatus now tid st r e => (setTaskStatus now d tid st r e).2
  | .note now tid text author => (addNote now d tid text author).2
  | .clear now => clearCompletedTasks now d
  | .reset now => resetAllTasks now d
  | .setProject now st => setProjectStatus now d st

/-- Run a sequence of mutations. -/
def runOps (ops : List Op) (d : TasksData) : TasksData :=
  ops.foldl (fun d op => applyOp op d) d

/-- The ids `create_task` generates along a run, in creation order. -/
def createdIds : List Op → TasksData → List String
  | [], _ => []
  | op :: ops, d =>
      match op with
      | .create nc _ _ _ _ _ _ _ _ => mkTaskId nc (d.tasks.length + 1) :: createdIds ops (applyOp op d)
      | _ => createdIds ops (applyOp op d)

/-- The statistics block agrees with the task list (the spec's
"statistics is a cache that must never drift"). -/
def statsConsistent (d : TasksData) : Prop :=
  d.statistics = computeStats d.tasks

instance (d : TasksData) : Decidable (statsConsistent d) := by
  unfold statsConsistent; infer_instance

/-! ### Association-list models of Python dicts -/

/-- Dict lookup (keys are unique in a dict, so first match). -/
def assocFind {α : Type} (m : List (String × α)) (k : String) : Option α :=
  (m.find? (fun p => p.1 = k)).map (fun p => p.2)

/-- Dict assignment `m[k] = v`: overwrite in place, else append. -/
def assocSet {α : Type} (m : List (String × α)) (k : String) (v : α) : List (String × α) :=
  match m with
  | [] => [(k, v)]
  | (k', v') :: rest => if k' = k then (k, v) :: rest else (k', v') :: assocSet rest k v

/-- `m.setdefault(k, []).append(v)`: append `v` to the list at `k`,
creating the entry if absent. -/
def assocPush (m : List (String × List String)) (k v : String) : List (String × List String) :=
  match m with
  | [] => [(k, [v])]
  | (k', vs) :: rest => if k' = k then (k', vs ++ [v]) :: rest else (k', vs) :: assocPush rest k v

/-! ### DependencyScheduler
(`LeaderAI._detect_file_conflicts` / `LeaderAI._get_execution_groups`) -/

/-- The `file_to_tasks` dict built by `_detect_file_conflicts`. -/
def fileToTasks (tasks : List Task) : List (String × List String) :=
  tasks.foldl (fun m t => t.files_to_modify.foldl (fun m f => assocPush m f t.id) m) []

/-- `LeaderAI._detect_file_conflicts`: keep only files declared by more
than one task. -/
def detectFileConflicts (tasks : List Task) : List (String × List String) :=
  (fileToTasks tasks).filter (fun p => 1 < p.2.length)

/-- The `task_map` dict (`{t["id"]: t for t in tasks}`). -/
def buildTaskMap (tasks : List Task) : List (String × Task) :=
  tasks.foldl (fun m t => assocSet m t.id t) []

/-- The dependency adjacency map restricted to the given id set
(`dependencies[t["id"]] = set(t["dependencies"]) & task_ids`); the
Python sets of ids are modelled as lists up to membership. -/
def baseDeps (tasks : List Task) : List (String × List String) :=
  let ids := tasks.map (fun t => t.id)
  tasks.foldl (fun m t => assocSet m t.id (t.dependencies.filter (fun d => ids.contains d))) []

/-- Insert the synthetic bidirectional conflict edges for one
conflicting-id list (`for i, tid1 ...: for tid2 in ids[i+1:]`). -/
def addConflictPairs : List String → List (String × List String) → List (String × List String)
  | [], m => m
  | tid1 :: rest, m =>
      addConflictPairs rest
        (rest.foldl (fun m tid2 => assocPush (assocPush m tid1 tid2) tid2 tid1) m)

/-- Add all conflict edges of `_get_execution_groups` step 2. -/
def addConflictEdges (m : List (String × List String))
    (conflicts : List (String × List String)) : List (String × List String) :=
  conflicts.foldl (fun m p => addConflictPairs p.2 m) m

/-- A task's dependency set in the adjacency map. -/
def lookupDeps (m : List (String × List String)) (tid : String) : List String :=
  (assocFind m tid).getD []

/-- The ids in `remaining` whose dependency set is contained in
`completedIds` (the `ready` collection of one loop iteration). -/
def readyIds (deps : List (String × List String))
    (remaining completedIds : List String) : List String :=
  remaining.filter (fun tid =>
    (lookupDeps deps tid).all (fun d => completedIds.contains d))

/-- One iteration's batch: the ready ids, or — cycle escape — one
forced arbitrary id (`next(iter(remaining))`, modelled as the first)
when none is ready. -/
def batchOf (deps : List (String × List String))
    (remaining completedIds : List String) : List String :=
  if (readyIds deps remaining completedIds).isEmpty then remaining.take 1
  else readyIds deps remaining completedIds

/-- The topological batching loop of `_get_execution_groups` (Kahn
variant with the forced-choice cycle escape).  The loop removes at
least one id per iteration, so it is run with `fuel` initialised to the
number of ids; the `fuel = 0` base case is unreachable from
`getExecutionGroups`.  Python iterates `remaining` as a set; the model
fixes the iteration order to first-insertion order, which is the only
determinisation made (the batching properties proved below do not
depend on it). -/
def groupsLoopIds (deps : List (String × List String)) :
    Nat → List String → List String → List (List String)
  | 0, _, _ => []
  | _, [], _ => []
  | fuel + 1, tid0 :: rest, completedIds =>
      batchOf deps (tid0 :: rest) completedIds ::
        groupsLoopIds deps fuel
          ((tid0 :: rest).filter
            (fun tid => ¬ (batchOf deps (tid0 :: rest) completedIds).contains tid))
          (completedIds ++ batchOf deps (tid0 :: rest) completedIds)

/-- `LeaderAI._get_execution_groups`. -/
def getExecutionGroups (tasks : List Task) : List (List Task) :=
  if tasks.isEmpty then []
  else
    let taskMap := buildTaskMap tasks
    let ids := (tasks.map (fun t => t.id)).eraseDups
    let deps := addConflictEdges (baseDeps tasks) (detectFileConflicts tasks)
    (groupsLoopIds deps ids.length ids []).map (fun b => b.filterMap (assocFind taskMap))

/-! ### The parallel dispatcher (`LeaderAI._assign_tasks_parallel_smart`)

Worker executions are abstracted by an oracle
`oracle : taskId → (success?, resultText)` standing for
`await worker.execute()`.  Within a batch `asyncio.gather` interleaves
the workers; every status write is atomic (single-threaded event loop),
no worker writes another task's record, and the properties proved below
are insensitive to the interleaving, so the model runs a batch in list
order.  `statusCalls` and `startLog` are ghost instrumentation: the log
of `set_task_status` calls, and, for each started task, the store state
at the moment it starts.

An important caveat about the execution phase: the first statement of
the source's `execute_with_semaphore` is `task_log(f"Worker 开始: ...")`,
and `task_log` is an undefined name — the module imports `task` from
the logger, not `task_log` (and the coroutine's parameter `task`
shadows even that).  Every real invocation therefore raises `NameError`
after acquiring the semaphore and before
`set_task_status(..., "in_progress")`; the exception propagates out of
`asyncio.gather` and out of `_assign_tasks_parallel_smart`, so the real
parallel path performs no store write at all.  Two models are
developed: `executeOne`/`runGroup`/`runGroups` model the coroutine body
from its second statement onward — the execution the code plainly
intends once the broken log call is ignored (frame properties proved
against this model hold a fortiori in the source, whose execution
writes do not even occur) — while `runGroupReal`/`runGroupsReal`/
`assignTasksParallelReal` below model the actual crash. -/

structure RunState where
  store : TasksData
  results : List (String × String)
  statusCalls : List (String × String)
  startLog : List (Task × TasksData)
deriving Repr, DecidableEq

/-- The body of `execute_with_semaphore` from its second statement
onward: mark in-progress, run the worker, record the terminal status
and the one-line outcome.  This is a counterfactual model: the actual
first statement, the undefined `task_log(...)` at leader_worker.py:1571,
raises `NameError` before any of these writes happens (see the section
header and `runGroupReal` below for the faithful model).  It is kept
because the skip-pass frame properties proved against it hold a
fortiori in the source, where these writes do not occur at all. -/
def executeOne (now : String) (oracle : String → Bool × String)
    (st : RunState) (t : Task) : RunState :=
  let st1 : RunState :=
    { st with
      startLog := st.startLog ++ [(t, st.store)]
      statusCalls := st.statusCalls ++ [(t.id, "in_progress")]
      store := (setTaskStatus now st.store t.id "in_progress" none none).2 }
  let outcome := oracle t.id
  if outcome.1 then
    { st1 with
      store := (setTaskStatus now st1.store t.id "completed" (some outcome.2) none).2
      statusCalls := st1.statusCalls ++ [(t.id, "completed")]
      results := assocSet st1.results t.id "✅ 完成" }
  else
    { st1 with
      store := (setTaskStatus now st1.store t.id "failed" none (some outcome.2)).2
      statusCalls := st1.statusCalls ++ [(t.id, "failed")]
      results := assocSet st1.results t.id ("❌ 失败: " ++ strTake outcome.2 100) }

/-- The `results` entry recorded for a task skipped because of failed
in-run dependencies. -/
def skipEntry (failedDeps : List String) : String :=
  "⏭️ 跳过: 依赖任务失败 (" ++ String.intercalate ", " failedDeps ++ ")"

/-- The `failed_deps` of the skip pass: dependencies whose `results`
entry starts with `"❌"`. -/
def skipCheck (results : List (String × String)) (t : Task) : List String :=
  t.dependencies.filter (fun d => strStartsWith ((assocFind results d).getD "") "❌")

/-- One step of the skip pass over a batch: either keep the task as
ready, or record the skip entry in `results` (nothing else changes). -/
def scanStep (acc : RunState × List Task) (t : Task) : RunState × List Task :=
  if (skipCheck acc.1.results t).isEmpty then (acc.1, acc.2 ++ [t])
  else
    ({ acc.1 with results := assocSet acc.1.results t.id (skipEntry (skipCheck acc.1.results t)) },
      acc.2)

/-- Run one execution batch under the counterfactual execution model:
first the skip pass (a task is skipped when some dependency's `results`
entry starts with `"❌"`), then execute the ready tasks.  The faithful
batch is `runGroupReal` below. -/
def runGroup (now : String) (oracle : String → Bool × String)
    (st : RunState) (group : List Task) : RunState :=
  (group.foldl scanStep (st, [])).2.foldl (executeOne now oracle) (group.foldl scanStep (st, [])).1

/-- Execute the batches sequentially (counterfactual model; the
faithful loop is `runGroupsReal` below). -/
def runGroups (now : String) (oracle : String → Bool × String)
    (st : RunState) (groups : List (List Task)) : RunState :=
  groups.foldl (runGroup now oracle) st

/-- The `{t["id"]: t.get("status") for t in all_tasks}` snapshot taken at
the top of `_assign_tasks_parallel_smart` (dict comprehension: the last
binding of a key wins). -/
def statusSnapshot (d : TasksData) : List (String × String) :=
  d.tasks.foldl (fun m t => assocSet m t.id t.status) []

/-- Outcome of the entry filter partitioning the requested ids. -/
structure FilterResult where
  tasks : List Task
  invalid : List String
  blocked : List String
deriving Repr, DecidableEq

/-- One step of the entry filter of `_assign_tasks_parallel_smart`:
unknown ids and non-pending tasks are invalid; a pending task any of
whose dependencies does not show `completed` in the global snapshot is
dependency-blocked; the rest are run. -/
def filterStep (d : TasksData) (snap : List (String × String))
    (acc : FilterResult) (tid : String) : FilterResult :=
  match getTask d tid with
  | none => { acc with invalid := acc.invalid ++ [tid] }
  | some t =>
      if t.status ≠ "pending" then
        { acc with invalid := acc.invalid ++ [tid ++ "(状态:" ++ t.status ++ ")"] }
      else
        if (t.dependencies.filter (fun dep => assocFind snap dep ≠ some "completed")).isEmpty
        then { acc with tasks := acc.tasks ++ [t] }
        else
          { acc with blocked :=
              acc.blocked ++ [tid ++ "(依赖:" ++
                String.intercalate ","
                  (t.dependencies.filter (fun dep => assocFind snap dep ≠ some "completed")) ++
                ")"] }

/-- The entry filter of `_assign_tasks_parallel_smart`, folded over the
requested ids against the status snapshot. -/
def filterRequested (d : TasksData) (taskIds : List String) : FilterResult :=
  taskIds.foldl (filterStep d (statusSnapshot d)) { tasks := [], invalid := [], blocked := [] }

/-- `LeaderAI._assign_tasks_parallel_smart` under the counterfactual
execution model: filter, group, execute.  Returns the filter outcome,
the batches, and the final run state (when no task survives the filter
the source returns early with an error string; the store is unchanged
either way).  The faithful version is `assignTasksParallelReal`
below. -/
def assignTasksParallelSmart (now : String) (oracle : String → Bool × String)
    (d : TasksData) (taskIds : List String) :
    FilterResult × List (List Task) × RunState :=
  let fr := filterRequested d taskIds
  if fr.tasks.isEmpty then (fr, [], ⟨d, [], [], []⟩)
  else
    let groups := getExecutionGroups fr.tasks
    (fr, groups, runGroups now oracle ⟨d, [], [], []⟩ groups)

/-- One batch of the real parallel run (the group loop at
leader_worker.py:1594-1609): the skip pass runs synchronously, then
`asyncio.gather` is awaited over the ready tasks.  Each gathered
coroutine's first statement is the `NameError` at line 1571 and the
exception propagates out of `gather` uncaught, so a batch whose ready
list is nonempty aborts the whole run (`.error`) with only the skip
pass's `results` writes applied and no store write; a batch whose ready
list is empty skips the `gather` and the run continues (`.ok`). -/
def runGroupReal (st : RunState) (group : List Task) : Except RunState RunState :=
  if ((group.foldl scanStep (st, [])).2).isEmpty then .ok (group.foldl scanStep (st, [])).1
  else .error (group.foldl scanStep (st, [])).1

/-- The real batch loop: batches run in order until the first
`NameError` abort; later batches never run. -/
def runGroupsReal (st : RunState) : List (List Task) → Except RunState RunState
  | [] => .ok st
  | g :: gs =>
      match runGroupReal st g with
      | .ok st1 => runGroupsReal st1 gs
      | .error st1 => .error st1

/-- The state a run ends in, whether it returned or crashed. -/
def exceptState : Except RunState RunState → RunState
  | .ok st => st
  | .error st => st

/-- Whether the run aborted with the `NameError`. -/
def isCrash : Except RunState RunState → Bool
  | .ok _ => false
  | .error _ => true

/-- `_assign_tasks_parallel_smart` as it actually executes: filter,
group, then the real batch loop.  `.error` marks the `NameError`
escaping the method (the tool call aborts with the exception instead of
returning a summary); either way the state inside is what the run
leaves behind. -/
def assignTasksParallelReal (d : TasksData) (taskIds : List String) :
    FilterResult × List (List Task) × Except RunState RunState :=
  let fr := filterRequested d taskIds
  if fr.tasks.isEmpty then (fr, [], .ok ⟨d, [], [], []⟩)
  else
    let groups := getExecutionGroups fr.tasks
    (fr, groups, runGroupsReal ⟨d, [], [], []⟩ groups)

/-! ### Serial assignment (`assign_task` branch of
`LeaderAI._handle_tool_calls_loop` plus `_assign_task_to_worker`) -/

/-- `LeaderAI._check_unmet_dependencies`. -/
def checkUnmetDependencies (d : TasksData) (deps : List String) : List String :=
  deps.filter (fun depId =>
    match getTask d depId with
    | none => true
    | some t => t.status ≠ "completed")

/-- The `f"... {result[:500]}..." if len(result) > 500 else ...` tail. -/
def clip500 (s : String) : String :=
  if s.length > 500 then strTake s 500 ++ "..." else s

/-- The `assign_task` tool branch: reject unknown / non-pending /
dependency-blocked tasks, otherwise hand the task to a Worker
(`_assign_task_to_worker`).  Returns the tool-result string, the store
afterwards, and the ghost start log. -/
def assignTask (now : String) (oracle : String → Bool × String)
    (d : TasksData) (taskId : String) :
    String × TasksData × List (Task × TasksData) :=
  match getTask d taskId with
  | none => ("错误: 未找到任务 " ++ taskId, d, [])
  | some t =>
      if t.status ≠ "pending" then
        ("错误: 任务 " ++ taskId ++ " 状态为 " ++ t.status ++ "，不是待处理状态", d, [])
      else
        let unmet := checkUnmetDependencies d t.dependencies
        if ¬ unmet.isEmpty then
          ("错误: 任务 " ++ taskId ++ " 的依赖未满足\n未完成的依赖: " ++
            String.intercalate ", " unmet ++ "\n请先完成依赖任务。", d, [])
        else
          let d1 := (setTaskStatus now d t.id "in_progress" none none).2
          let outcome := oracle t.id
          if outcome.1 then
            ("✅ 任务 " ++ t.id ++ " 完成\n结果: " ++ clip500 outcome.2,
              (setTaskStatus now d1 t.id "completed" (some outcome.2) none).2, [(t, d)])
          else
            ("❌ 任务 " ++ t.id ++ " 失败\n错误: " ++ clip500 outcome.2,
              (setTaskStatus now d1 t.id "failed" none (some outcome.2)).2, [(t, d)])

/-! ### ModelInterface.call (retry loop)

The OpenAI client is abstracted by `client : attempt ↦ Except errMsg
(content, toolCalls)`: `.error e` models `chat.completions.create`
raising an exception whose `str()` is `e`, `.ok` models a successful
response after the source's content/tool-call extraction.  The model
returns the number of attempts performed alongside the result; the
backoff sleep has no effect on the data model.  `call` is a total
function: the source catches every client exception, so it never
raises. -/

/-- A structured tool call as assembled by the source
(`{id, type, function: {name, arguments}}`). -/
structure ToolCall where
  id : String
  type : String
  name : String
  arguments : String
deriving Repr, DecidableEq

def MAX_RETRIES : Nat := 3

/-- `ModelInterface._should_retry`: the transient-failure signatures. -/
def retryKeywords : List String :=
  ["rate limit", "429", "too many requests",
   "timeout", "timed out", "connection",
   "network", "temporary", "unavailable",
   "overloaded", "capacity"]

/-- `any(kw in error_str for kw in retry_keywords)` over the lowercased
message. -/
def shouldRetry (errMsg : String) : Bool :=
  retryKeywords.any (fun kw => strContains (asciiLower errMsg) kw)

/-- The synthetic error text returned after the loop exits without a
successful response (`f"调用失败 (重试 {MAX_RETRIES} 次后): {last_error}"`). -/
def callFailureText (lastError : String) : String :=
  "调用失败 (重试 " ++ decStr MAX_RETRIES ++ " 次后): " ++ lastError

/-- The `for attempt in range(MAX_RETRIES + 1)` loop body of
`ModelInterface.call`.  `fuel` is the number of remaining loop
iterations (initially `MAX_RETRIES + 1`), `attempt` the current index;
returns the `(text, toolCalls)` result and the number of attempts that
were performed. -/
def callGo (client : Nat → Except String (String × List ToolCall)) :
    Nat → Nat → Option String → (String × List ToolCall) × Nat
  | 0, attempt, lastError =>
      ((callFailureText (lastError.getD "None"), []), attempt)
  | fuel + 1, attempt, _ =>
      match client attempt with
      | .ok r => (r, attempt + 1)
      | .error e =>
          if shouldRetry e ∧ attempt < MAX_RETRIES then
            callGo client fuel (attempt + 1) (some e)
          else
            ((callFailureText e, []), attempt + 1)

/-- `ModelInterface.call` (identically `call_with_messages`, whose retry
loop is the same). -/
def call (client : Nat → Except String (String × List ToolCall)) :
    (String × List ToolCall) × Nat :=
  callGo client (MAX_RETRIES + 1) 0 none

/-! ### Message histories -/

/-- A role-tagged conversation message (the dicts the source appends to
`self.messages`). -/
structure Message where
  role : String
  content : Option String
  tool_calls : List ToolCall := []
  tool_call_id : Option String := none
  name : Option String := none
deriving Repr, DecidableEq

/-- Worker history truncation (`WorkerAI._execution_loop`, the
`len(messages) > max_message_count` branch executed before each model
call): keep the system message (when the first message is one) plus
`messages[-(max_message_count-1):]`, i.e. the 49 most recent
messages. -/
def workerTrim (messages : List Message) : List Message :=
  if messages.length > 50 then
    (match messages.head? with
     | some m => if m.role = "system" then [m] else []
     | none => []) ++ messages.drop (messages.length - 49)
  else messages

/-- What the claim under test says the worker compaction produces:
the system message plus the 15 most recent messages.  (Spec-modelled
comparison definition, not code.) -/
def workerTrimClaimed (messages : List Message) : List Message :=
  if messages.length > 50 then
    (match messages.head? with
     | some m => if m.role = "system" then [m] else []
     | none => []) ++ messages.drop (messages.length - 15)
  else messages

/-- One summary line of `LeaderAI._summarize_old_messages`. -/
def summaryLine (m : Message) : Option String :=
  let content := (m.content.getD "")
  if m.role = "user" then some ("用户: " ++ strTake content 100 ++ "...")
  else if m.role = "assistant" then
    if ¬ m.tool_calls.isEmpty then
      some ("助手调用了工具: " ++ String.intercalate ", " ((m.tool_calls.map (fun tc => tc.name)).take 3))
    else if content ≠ "" then some ("助手: " ++ strTake content 100 ++ "...")
    else none
  else if m.role = "tool" then some ("工具结果: " ++ strTake content 50 ++ "...")
  else none

/-- The synthetic summary user message. -/
def summaryMessage (parts : List String) : Message :=
  let summaryText := "【历史摘要】\n" ++
    String.intercalate "\n" (parts.drop (parts.length - 20))
  { role := "user"
    content := some ("[系统自动生成的历史摘要]\n" ++ summaryText ++ "\n\n请继续基于以上历史上下文工作。") }

/-- `LeaderAI._summarize_old_messages`: split off the system message,
keep the `keepRecent` most recent non-system messages, summarise the
older ones into one synthetic user message. -/
def summarizeOldMessages (messages : List Message) (keepRecent : Nat) : List Message :=
  if messages.length ≤ keepRecent + 2 then messages
  else
    let systemMsg := (messages.filter (fun m => m.role = "system")).getLast?
    let others := messages.filter (fun m => m.role ≠ "system")
    let recent := others.drop (others.length - keepRecent)
    let old := others.take (others.length - keepRecent)
    if old.isEmpty then messages
    else
      (match systemMsg with | some m => [m] | none => []) ++
        [summaryMessage (old.filterMap summaryLine)] ++ recent

/-- `LeaderAI._manage_context`: compact when the history exceeds
`maxMessages` (default 50) messages; returns the new history and
whether compaction happened.  NOTE: no code in the repository ever
calls this method. -/
def manageContext (messages : List Message) (maxMessages : Nat := 50) :
    List Message × Bool :=
  if messages.length ≤ maxMessages then (messages, false)
  else (summarizeOldMessages messages 15, true)

/-- `LeaderAI.process_user_input`, restricted to a model turn that
returns no tool calls (`modelResponse` abstracts
`call_with_messages`): rewrite/insert the system prompt, append the
user message, append the assistant response when non-empty, and persist
(`_save_history`) — the persisted history is the returned list.  No
compaction is performed anywhere on this path. -/
def processUserInput (systemPrompt userInput modelResponse : String)
    (messages : List Message) : List Message :=
  let m1 :=
    match messages with
    | m :: rest =>
        if m.role = "system" then { m with content := some systemPrompt } :: rest
        else { role := "system", content := some systemPrompt } :: m :: rest
    | [] => [{ role := "system", content := some systemPrompt }]
  let m2 := m1 ++ [{ role := "user", content := some userInput }]
  if modelResponse ≠ "" then m2 ++ [{ role := "assistant", content := some modelResponse }]
  else m2

/-! ### Tool-call argument parsing

`json.loads` is an external library call, abstracted by an oracle
`parse : String → Option α` over an arbitrary value domain `α`
(`none` models `json.loads` raising). -/

/-- Python `\w` (ASCII range, as all probed inputs are ASCII). -/
def isWordChar (c : Char) : Bool := c.isAlphanum || c = '_'

/-- The scan of `re.sub(r"(\w+):", r"'\1':", s)`: a maximal word-char
run immediately followed by `:` is wrapped in single quotes.  `fuel`
bounds the recursion by the input length (each step consumes at least
one character), so the `0` case is unreachable from `normalizeQuotes`. -/
def quoteKeysGo : Nat → List Char → List Char
  | 0, cs => cs
  | _, [] => []
  | fuel + 1, c :: cs =>
      if isWordChar c then
        let run := (c :: cs).takeWhile isWordChar
        let rest := (c :: cs).dropWhile isWordChar
        match rest with
        | ':' :: rest2 => '\'' :: (run ++ ('\'' :: ':' :: quoteKeysGo fuel rest2))
        | _ => run ++ quoteKeysGo fuel rest
      else c :: quoteKeysGo fuel cs

/-- The lenient re-parse normalisation of `ai_caller.py`:
`re.sub(r"(\w+):", r"'\1':", s).replace("'", '"')`. -/
def normalizeQuotes (s : String) : String :=
  String.mk ((quoteKeysGo s.data.length s.data).map (fun c => if c = '\'' then '"' else c))

/-- Argument parsing in `LeaderAI._handle_tool_calls_loop`
(`try: json.loads(...) except: args = {}`): any parse failure yields the
empty object directly, and the tool call proceeds. -/
def leaderParseArgs {α : Type} (parse : String → Option α) (emptyObj : α)
    (arguments : String) : α :=
  (parse arguments).getD emptyObj

/-- Argument parsing in `WorkerAI._handle_tool_call`: identical. -/
def workerParseArgs {α : Type} (parse : String → Option α) (emptyObj : α)
    (arguments : String) : α :=
  (parse arguments).getD emptyObj

/-- Argument parsing in the `ai_caller.py` tool loop: on
`JSONDecodeError` normalise quotes and parse again; a failure of the
second `json.loads` is NOT caught, i.e. it propagates (`.error`). -/
def aiCallerParseArgs {α : Type} (parse : String → Option α)
    (arguments : String) : Except String α :=
  match parse arguments with
  | some a => .ok a
  | none =>
      match parse (normalizeQuotes arguments) with
      | some a => .ok a
      | none => .error "json.decoder.JSONDecodeError"

/-- What the claim under test says every dispatcher does: one lenient
re-parse, then fall back to the empty object and still execute.
(Spec-modelled comparison definition, not code.) -/
def claimedParseArgs {α : Type} (parse : String → Option α) (emptyObj : α)
    (arguments : String) : α :=
  match parse arguments with
  | some a => a
  | none => (parse (normalizeQuotes arguments)).getD emptyObj

/-! ### Concrete sample data used by closed theorems and witnesses -/

/-- A baseline pending task for concrete scenarios. -/
def sampleTask : Task where
  id := "t1"
  title := "A"
  description := ""
  type := "code"
  priority := 3
  status := "pending"
  dependencies := []
  assigned_to := none
  created_at := "c"
  started_at := none
  completed_at := none
  files_to_modify := []
  acceptance_criteria := []
  result_summary := none
  error_log := none
  git_commit := none
  notes := []

/-- Scenario B pair: two tasks, no mutual dependency, both declaring
`files_to_modify := ["a.py"]`. -/
def conflictT1 : Task := { sampleTask with files_to_modify := ["a.py"] }

def conflictT2 : Task := { sampleTask with id := "t2", files_to_modify := ["a.py"] }

/-- A completed task (for the status-monotonicity counterexample). -/
def completedTask : Task := { sampleTask with status := "completed", completed_at := some "x" }

def completedStore : TasksData := { createEmptyTasks "p" "n" with tasks := [completedTask] }

/-- Store for the dependency-gate counterexample: `t1` pending with no
dependencies, `t2` pending depending on `t1`. -/
def depT2 : Task := { sampleTask with id := "t2", dependencies := ["t1"] }

def depStore : TasksData := { createEmptyTasks "p" "n" with tasks := [sampleTask, depT2] }

/-- The faithful parallel run requesting both tasks of `depStore`: it
aborts with the `NameError` on the first batch. -/
def depRunReal : FilterResult × List (List Task) × Except RunState RunState :=
  assignTasksParallelReal depStore ["t1", "t2"]

/-- A completed dependency for the serial-gate witness. -/
def doneDep : Task := { sampleTask with id := "d1", status := "completed" }

/-- A pending task whose one dependency `d1` is completed. -/
def serialTask : Task := { sampleTask with id := "t9", dependencies := ["d1"] }

def serialStore : TasksData := { createEmptyTasks "p" "n" with tasks := [doneDep, serialTask] }

/-- A task depending on `"dX"`, and a batch list that makes the skip
branch of the group loop fire (its dependency already has a failed
`results` entry). -/
def skipTask : Task := { sampleTask with id := "tA", dependencies := ["dX"] }

def skipStore : TasksData := { createEmptyTasks "p" "n" with tasks := [skipTask] }

def skipRun : RunState :=
  runGroups "now" (fun _ => (true, "ok")) ⟨skipStore, [("dX", "❌ 失败: boom")], [], []⟩ [[skipTask]]

/-- Ops for the id-collision counterexample: create, complete, clear,
create again, all within the wall-clock second `20250101000000`. -/
def collisionOps : List Op :=
  [Op.create "20250101000000" "i1" "T1" "" "code" 3 [] [] [],
   Op.setStatus "i2" "task_20250101000000_1" "completed" none none,
   Op.clear "i3",
   Op.create "20250101000000" "i4" "T2" "" "code" 3 [] [] []]

def emptyStore : TasksData := createEmptyTasks "p" "n"

/-- Whether an op is `clear_completed_tasks` (the only op that can
shrink the task list). -/
def isClearOp : Op → Bool
  | .clear _ => true
  | _ => false

/-- Whether a creation op carries a well-formed compact timestamp
(`strftime('%Y%m%d%H%M%S')` always yields 14 characters). -/
def createNowOk : Op → Bool
  | .create nc _ _ _ _ _ _ _ _ => nc.length == 14
  | _ => true

/-- Two creations within the same wall-clock second, no clear between
them. -/
def sameSecondOps : List Op :=
  [Op.create "20250101000000" "i1" "T1" "" "code" 3 [] [] [],
   Op.create "20250101000000" "i2" "T2" "" "code" 3 [] [] []]

/-- A client whose every attempt raises a transient error. -/
def transientClient : Nat → Except String (String × List ToolCall) :=
  fun _ => .error "Rate Limit exceeded"

/-- A client whose first attempt raises a non-transient error. -/
def fatalClient : Nat → Except String (String × List ToolCall) :=
  fun _ => .error "invalid api key"

/-- A 51-message worker history: system message plus 50 user messages. -/
def workerHistory51 : List Message :=
  { role := "system", content := some "sys" } ::
    (List.range 50).map (fun _ => { role := "user", content := some "u" })

/-- A 60-message leader history: system message plus 59 user messages. -/
def leaderHistory60 : List Message :=
  { role := "system", content := some "sys" } ::
    (List.range 59).map (fun _ => { role := "user", content := some "u" })

/-- The history `process_user_input` persists from `leaderHistory60`. -/
def leaderSaved : List Message := processUserInput "S" "hello" "resp" leaderHistory60

/-- A stand-in for `json.loads` over flat `string ↦ int` objects,
agreeing with it on every string probed below: only `{"a": 1}` (in
Python notation) is valid JSON among them. -/
def demoParse : String → Option (List (String × Int)) :=
  fun s => if s = "\x7b\"a\": 1\x7d" then some [("a", 1)] else none

/-! ### Specification predicates for the dependency gate -/

/-- Every dependency of `t` shows `completed` in store `d`. -/
def depsCompletedIn (d : TasksData) (t : Task) : Prop :=
  ∀ dep ∈ t.dependencies, (getTask d dep).map (fun u => u.status) = some "completed"

/-- `t`'s record in store `d` shows `pending`. -/
def taskPendingIn (d : TasksData) (t : Task) : Prop :=
  (getTask d t.id).map (fun u => u.status) = some "pending"

/-- `s` agrees with `d` on every record that is `completed` in `d`. -/
def preservesCompleted (d s : TasksData) : Prop :=
  ∀ x, (getTask d x).map (fun u => u.status) = some "completed" → getTask s x = getTask d x

/-- Every start-log entry records a task all of whose dependencies were
`completed` in the store at the recorded start moment. -/
def startLogOk (log : List (Task × TasksData)) : Prop :=
  ∀ p ∈ log, depsCompletedIn p.2 p.1

/-! ## Claims -/

/-- Claim C3 (confirmed).  Statistics consistency: every `TaskManager`
mutation (`create_task`, `update_task`, `set_task_status`, `add_note`,
`clear_completed_tasks`, `reset_all_tasks`, `set_project_status`)
either leaves the store exactly unchanged (the `return False` paths for
unknown ids, which save nothing) or leaves `statistics.total` equal to
the number of tasks and each per-status counter equal to the number of
tasks with that status; a fresh store is consistent, so statistics
never drift from the task list. -/
theorem statistics_never_drift :
    (∀ projectName now, statsConsistent (createEmptyTasks projectName now)) ∧
    ∀ (op : Op) (d : TasksData), applyOp op d = d ∨ statsConsistent (applyOp op d) := by
  have hsave : ∀ now d, statsConsistent (saveTasks now d) := by
    intro now d; rfl
  refine ⟨fun projectName now => by rfl, fun op d => ?_⟩
  cases op with
  | create nc ni ti de ty pr dep fi ac =>
      exact Or.inr (hsave _ _)
  | update now tid u =>
      cases h : getTask d tid with
      | none => exact Or.inl (by simp [applyOp, updateTask, h])
      | some t => exact Or.inr (by simp [applyOp, updateTask, h]; exact hsave _ _)
  | setStatus now tid st r e =>
      cases h : getTask d tid with
      | none => exact Or.inl (by simp [applyOp, setTaskStatus, updateTask, h])
      | some t => exact Or.inr (by simp [applyOp, setTaskStatus, updateTask, h]; exact hsave _ _)
  | note now tid text author =>
      cases h : getTask d tid with
      | none => exact Or.inl (by simp [applyOp, addNote, h])
      | some t => exact Or.inr (by simp [applyOp, addNote, h]; exact hsave _ _)
  | clear now => exact Or.inr (hsave _ _)
  | reset now => exact Or.inr (hsave _ _)
  | setProject now st => exact Or.inr (hsave _ _)

/-- Claim C4, counterexample.  The claim says no `TaskManager` operation
ever moves a task out of the terminal states `completed`/`failed`; but
`reset_all_tasks` moves the completed task of `completedStore` straight
back to `pending` (also clearing its timestamps). -/
theorem status_monotonicity_counterexample :
    (getTask completedStore "t1").map (fun t => t.status) = some "completed" ∧
    (getTask (resetAllTasks "now" completedStore) "t1").map (fun t => t.status) = some "pending" ∧
    (getTask (resetAllTasks "now" completedStore) "t1").map (fun t => t.completed_at) = some none := by
  decide

/-- `find?` over `updateFirst` when the update cannot make the
predicate true for other elements and preserves it for matches. -/
theorem find?_updateFirst (p : Task → Bool) (f : Task → Task) (l : List Task)
    (hf : ∀ t, p (f t) = p t) :
    (updateFirst p f l).find? p = (l.find? p).map f := by
  induction l with
  | nil => rfl
  | cons t ts ih =>
      by_cases h : p t
      · simp [updateFirst, h, List.find?_cons, hf]
      · simp [updateFirst, h, List.find?_cons, ih]

/-- Claim C4 (corrected).  `TaskManager` enforces no transition
discipline at all: `set_task_status` stores whatever status it is
given, regardless of the task's current status (in particular a
terminal task can be moved anywhere), and `reset_all_tasks` returns
every task — terminal or not — to `pending`.  The
pending→in_progress→{completed,failed} discipline holds only insofar as
callers happen to request only such transitions. -/
theorem status_transitions_unrestricted (now : String) (d : TasksData)
    (taskId status : String) (result error : Option String)
    (hknown : (getTask d taskId).isSome) :
    ((getTask (setTaskStatus now d taskId status result error).2 taskId).map
        (fun t => t.status) = some status) ∧
    ∀ t ∈ (resetAllTasks now d).tasks, t.status = "pending" := by
  constructor
  · obtain ⟨t0, ht0⟩ := Option.isSome_iff_exists.mp hknown
    have ht0' : d.tasks.find? (fun t => t.id = taskId) = some t0 := ht0
    simp only [setTaskStatus, updateTask, getTask, saveTasks, ht0']
    rw [find?_updateFirst (fun t => decide (t.id = taskId))
      (applyUpdates (statusUpdates now status result error)) d.tasks (fun t => rfl)]
    simp [ht0']
    rfl
  · intro t ht
    have h : t ∈ d.tasks.map (fun t =>
        { t with status := "pending", started_at := none, completed_at := none,
                 assigned_to := none }) := ht
    obtain ⟨a, -, rfl⟩ := List.mem_map.mp h
    rfl

/-- Witness for `status_transitions_unrestricted`: moving the completed
task of `completedStore` back to `pending` through `set_task_status`
succeeds. -/
theorem status_transitions_unrestricted_witness :
    (getTask completedStore "t1").isSome ∧
    ((getTask (setTaskStatus "n2" completedStore "t1" "pending" none none).2 "t1").map
        (fun t => t.status) = some "pending") := by
  refine ⟨by decide, ?_⟩
  exact (status_transitions_unrestricted "n2" completedStore "t1" "pending" none none (by decide)).1

/-- Claim C5 (confirmed).  Retry bound of `ModelInterface.call`: a
client raising a transient-signature exception on every attempt yields
exactly `MAX_RETRIES + 1 = 4` attempts and an error-shaped `(text, [])`
result (the function is total, i.e. it returns instead of raising); a
client raising a non-matching exception aborts after exactly one
attempt, likewise returning the error-shaped result. -/
theorem retry_bound (client : Nat → Except String (String × List ToolCall)) :
    ((∀ i, i ≤ MAX_RETRIES → ∃ e, client i = .error e ∧ shouldRetry e = true) →
      (call client).2 = MAX_RETRIES + 1 ∧
      ∃ e, client MAX_RETRIES = .error e ∧ (call client).1 = (callFailureText e, [])) ∧
    (∀ e, client 0 = .error e → shouldRetry e = false →
      (call client).2 = 1 ∧ (call client).1 = (callFailureText e, [])) := by
  constructor
  · intro h
    obtain ⟨e0, h0, r0⟩ := h 0 (by decide)
    obtain ⟨e1, h1, r1⟩ := h 1 (by decide)
    obtain ⟨e2, h2, r2⟩ := h 2 (by decide)
    obtain ⟨e3, h3, r3⟩ := h 3 (by decide)
    refine ⟨?_, e3, h3, ?_⟩ <;>
      simp [call, callGo, MAX_RETRIES, h0, h1, h2, h3, r0, r1, r2]
  · intro e h0 hr
    constructor <;> simp [call, callGo, MAX_RETRIES, h0, hr]

/-- Witness for `retry_bound` at the two concrete clients. -/
theorem retry_bound_witness :
    ((call transientClient).2 = MAX_RETRIES + 1 ∧
      (call transientClient).1 = (callFailureText "Rate Limit exceeded", [])) ∧
    (call fatalClient).2 = 1 ∧
    (call fatalClient).1 = (callFailureText "invalid api key", []) := by
  have h1 := (retry_bound transientClient).1
    (fun i _ => ⟨"Rate Limit exceeded", rfl, by decide⟩)
  have h2 := (retry_bound fatalClient).2 "invalid api key" rfl (by decide)
  obtain ⟨e, he, hres⟩ := h1.2
  have he' : "Rate Limit exceeded" = e := by
    have : (Except.error "Rate Limit exceeded" :
        Except String (String × List ToolCall)) = .error e := he
    injection this
  exact ⟨⟨h1.1, he' ▸ hres⟩, h2.1, h2.2⟩

/-- Claim C6, counterexample.  The claim says the worker history is
compacted to the system message plus the 15 most recent messages; on a
51-message history the code instead keeps the system message plus the
49 most recent (50 messages total, not 16). -/
theorem worker_truncation_counterexample :
    workerHistory51.length = 51 ∧
    workerTrim workerHistory51 ≠ workerTrimClaimed workerHistory51 ∧
    (workerTrim workerHistory51).length = 50 ∧
    (workerTrimClaimed workerHistory51).length = 16 := by
  decide

/-- Claim C6 (corrected).  In `WorkerAI._execution_loop`, before each
model call, a history exceeding 50 messages is compacted to exactly the
system message plus the `max_message_count - 1 = 49` most recent
messages (not 15): the result has 50 messages, starts with the original
system message, and its tail is the unchanged 49-message suffix of the
pre-compaction history. -/
theorem worker_truncation_keeps_49 (messages : List Message) (m0 : Message)
    (hlen : 50 < messages.length) (hhead : messages.head? = some m0)
    (hsys : m0.role = "system") :
    (workerTrim messages).length = 50 ∧
    (workerTrim messages).head? = some m0 ∧
    (workerTrim messages).tail = messages.drop (messages.length - 49) ∧
    (workerTrim messages).tail.length = 49 ∧
    List.IsSuffix ((workerTrim messages).tail) messages := by
  have hw : workerTrim messages = m0 :: messages.drop (messages.length - 49) := by
    unfold workerTrim
    rw [if_pos hlen, hhead]
    show (if m0.role = "system" then [m0] else []) ++ _ = _
    rw [if_pos hsys]
    rfl
  rw [hw]
  refine ⟨?_, rfl, rfl, ?_, List.drop_suffix _ _⟩
  · simp only [List.length_cons, List.length_drop]
    omega
  · simp only [List.tail_cons, List.length_drop]
    omega

/-- Witness for `worker_truncation_keeps_49` at the concrete 51-message
history. -/
theorem worker_truncation_keeps_49_witness :
    50 < workerHistory51.length ∧
    (workerTrim workerHistory51).length = 50 ∧
    (workerTrim workerHistory51).tail.length = 49 :=
  have h := worker_truncation_keeps_49 workerHistory51
    ⟨"system", some "sys", [], none, none⟩ (by decide) rfl rfl
  ⟨by decide, h.1, h.2.2.2.1⟩

/-- Claim C7 (code bug).  The claim — history exceeding 50 messages is
compacted before being persisted or re-sent — matches the code's own
intent (`_manage_context`, doc-commented as overflow protection, and
the module header advertising smart context management), but no call
site for `_manage_context` exists anywhere in the repository: on a
60-message history `process_user_input` persists and re-sends the full
62-message history unchanged, while the never-invoked compaction would
have produced the 17-message `[system, summary, recent-15]` shape the
claim describes (system message first, recent tail unchanged). -/
theorem leader_compaction_never_invoked :
    leaderSaved.length = 62 ∧
    50 < leaderSaved.length ∧
    (manageContext leaderSaved 50).2 = true ∧
    (manageContext leaderSaved 50).1.length = 17 ∧
    leaderSaved ≠ (manageContext leaderSaved 50).1 ∧
    (manageContext leaderSaved 50).1.head? = leaderSaved.head? ∧
    (manageContext leaderSaved 50).1.drop 2 = leaderSaved.drop 47 := by
  decide

/-- Claim C9, counterexample.  The claim says every dispatcher attempts
one lenient quote-normalising re-parse and falls back to an empty
object.  The Leader dispatcher does no re-parse: on `{a: 1}` (invalid
JSON whose normalisation `{"a": 1}` parses) it yields the empty object
where the claimed behaviour yields `{"a": 1}`; and the `ai_caller.py`
dispatcher propagates the decode error on `{bad` instead of falling
back to an empty object. -/
theorem lenient_reparse_counterexample :
    leaderParseArgs demoParse [] "\x7ba: 1\x7d" = [] ∧
    claimedParseArgs demoParse [] "\x7ba: 1\x7d" = [("a", 1)] ∧
    leaderParseArgs demoParse [] "\x7ba: 1\x7d" ≠ claimedParseArgs demoParse [] "\x7ba: 1\x7d" ∧
    aiCallerParseArgs demoParse "\x7bbad" = .error "json.decoder.JSONDecodeError" :=
  ⟨by decide, by decide, by decide, rfl⟩

/-- Claim C9 (corrected).  The Leader and Worker dispatchers treat any
arguments string that fails strict JSON parsing directly as an empty
object (no lenient re-parse) and still execute the tool call; only the
`ai_caller.py` loop attempts the quote-normalising re-parse, and when
that re-parse also fails the `JSONDecodeError` propagates (the tool
call aborts) instead of falling back to an empty object. -/
theorem parse_failure_handling {α : Type} (parse : String → Option α) (emptyObj : α)
    (s : String) (h1 : parse s = none) (h2 : parse (normalizeQuotes s) = none) :
    leaderParseArgs parse emptyObj s = emptyObj ∧
    workerParseArgs parse emptyObj s = emptyObj ∧
    aiCallerParseArgs parse s = .error "json.decoder.JSONDecodeError" ∧
    ∀ v, aiCallerParseArgs parse s ≠ .ok v := by
  simp [leaderParseArgs, workerParseArgs, aiCallerParseArgs, h1, h2]

/-- Witness for `parse_failure_handling` at the concrete input `{bad`. -/
theorem parse_failure_handling_witness :
    demoParse "\x7bbad" = none ∧ demoParse (normalizeQuotes "\x7bbad") = none ∧
    leaderParseArgs demoParse ([] : List (String × Int)) "\x7bbad" = [] ∧
    aiCallerParseArgs demoParse "\x7bbad" = .error "json.decoder.JSONDecodeError" :=
  have h := parse_failure_handling demoParse ([] : List (String × Int)) "\x7bbad"
    (by decide) (by decide)
  ⟨by decide, by decide, h.1, h.2.2.1⟩

theorem decStrGo_eq (fuel : Nat) : ∀ (n : Nat) (acc : List Char), 0 < n → n ≤ fuel →
    decStrGo fuel n acc = ((Nat.digits 10 n).reverse.map Nat.digitChar) ++ acc := by
  induction fuel with
  | zero => intro n acc hn hle; omega
  | succ fuel ih =>
      intro n acc hn hle
      rw [Nat.digits_def' (by norm_num : (1 : Nat) < 10) hn]
      unfold decStrGo
      by_cases h10 : n < 10
      · rw [if_pos h10]
        have hdiv : n / 10 = 0 := Nat.div_eq_of_lt h10
        simp [hdiv]
      · rw [if_neg h10]
        have hn' : 0 < n / 10 := Nat.div_pos (le_of_not_lt h10) (by norm_num)
        have hle' : n / 10 ≤ fuel := by
          have := Nat.div_lt_self hn (by norm_num : 1 < 10)
          omega
        rw [ih (n / 10) _ hn' hle']
        simp

theorem digitChar_inj_lt10 : ∀ a < 10, ∀ b < 10, Nat.digitChar a = Nat.digitChar b → a = b := by
  decide

theorem map_digitChar_inj : ∀ (l1 l2 : List Nat), (∀ x ∈ l1, x < 10) → (∀ x ∈ l2, x < 10) →
    l1.map Nat.digitChar = l2.map Nat.digitChar → l1 = l2 := by
  intro l1
  induction l1 with
  | nil =>
      intro l2 _ _ h
      cases l2 with
      | nil => rfl
      | cons b l2 => simp at h
  | cons a l1 ih =>
      intro l2 h1 h2 h
      cases l2 with
      | nil => simp at h
      | cons b l2 =>
          simp only [List.map_cons, List.cons.injEq] at h
          have hab : a = b :=
            digitChar_inj_lt10 a (h1 a (List.mem_cons_self a l1)) b
              (h2 b (List.mem_cons_self b l2)) h.1
          have := ih l2 (fun x hx => h1 x (List.mem_cons_of_mem _ hx))
            (fun x hx => h2 x (List.mem_cons_of_mem _ hx)) h.2
          rw [hab, this]

theorem decStr_inj (m n : Nat) (hm : 0 < m) (hn : 0 < n) (h : decStr m = decStr n) : m = n := by
  unfold decStr at h
  rw [decStrGo_eq _ m [] hm (Nat.le_succ m), decStrGo_eq _ n [] hn (Nat.le_succ n)] at h
  have hdata := congrArg String.data h
  simp only [List.append_nil] at hdata
  have hrev : (Nat.digits 10 m).reverse = (Nat.digits 10 n).reverse :=
    map_digitChar_inj _ _
      (fun x hx => Nat.digits_lt_base (by norm_num) (List.mem_reverse.mp hx))
      (fun x hx => Nat.digits_lt_base (by norm_num) (List.mem_reverse.mp hx)) hdata
  have hdig : Nat.digits 10 m = Nat.digits 10 n := List.reverse_inj.mp hrev
  calc m = Nat.ofDigits 10 (Nat.digits 10 m) := (Nat.ofDigits_digits 10 m).symm
    _ = Nat.ofDigits 10 (Nat.digits 10 n) := by rw [hdig]
    _ = n := Nat.ofDigits_digits 10 n

theorem mkTaskId_inj_counter (now1 now2 : String) (n m : Nat)
    (h1 : now1.length = 14) (h2 : now2.length = 14) (hn : 0 < n) (hm : 0 < m)
    (h : mkTaskId now1 n = mkTaskId now2 m) : n = m := by
  unfold mkTaskId at h
  have hd := congrArg String.data h
  simp only [String.data_append, List.append_assoc] at hd
  have hd1 := List.append_cancel_left hd
  have h1' : now1.data.length = now2.data.length := by
    have e1 : now1.data.length = 14 := h1
    have e2 : now2.data.length = 14 := h2
    omega
  obtain ⟨-, hd2⟩ := List.append_inj hd1 h1'
  have hd3 := List.append_cancel_left hd2
  exact decStr_inj n m hn hm (String.ext hd3)


theorem updateFirst_length (p : Task → Bool) (f : Task → Task) :
    ∀ l : List Task, (updateFirst p f l).length = l.length := by
  intro l
  induction l with
  | nil => rfl
  | cons t ts ih => by_cases h : p t <;> simp [updateFirst, h, ih]

theorem applyOp_tasks_len_mono (op : Op) (d : TasksData) (h : isClearOp op = false) :
    d.tasks.length ≤ (applyOp op d).tasks.length := by
  cases op with
  | create nc ni ti de ty pr dep fi ac => simp [applyOp, createTask, saveTasks]
  | update now tid u =>
      cases hg : getTask d tid with
      | none => simp [applyOp, updateTask, hg]
      | some t => simp [applyOp, updateTask, hg, saveTasks, updateFirst_length]
  | setStatus now tid st r e =>
      cases hg : getTask d tid with
      | none => simp [applyOp, setTaskStatus, updateTask, hg]
      | some t => simp [applyOp, setTaskStatus, updateTask, hg, saveTasks, updateFirst_length]
  | note now tid text author =>
      cases hg : getTask d tid with
      | none => simp [applyOp, addNote, hg]
      | some t => simp [applyOp, addNote, hg, saveTasks, updateFirst_length]
  | clear now => simp [isClearOp] at h
  | reset now => simp [applyOp, resetAllTasks, saveTasks]
  | setProject now st => simp [applyOp, setProjectStatus, saveTasks]

theorem applyOp_create_len (nc ni ti de ty : String) (pr : Int)
    (dep fi ac : List String) (d : TasksData) :
    (applyOp (.create nc ni ti de ty pr dep fi ac) d).tasks.length = d.tasks.length + 1 := by
  simp [applyOp, createTask, saveTasks]

theorem createdIds_bound : ∀ (ops : List Op) (d : TasksData),
    (∀ op ∈ ops, isClearOp op = false) → (∀ op ∈ ops, createNowOk op = true) →
    ∀ s ∈ createdIds ops d,
      ∃ nc k, s = mkTaskId nc k ∧ nc.length = 14 ∧ d.tasks.length + 1 ≤ k := by
  intro ops
  induction ops with
  | nil => intro d _ _ s hs; simp [createdIds] at hs
  | cons op ops ih =>
      intro d hclear hnow s hs
      have hclear' : ∀ o ∈ ops, isClearOp o = false :=
        fun o ho => hclear o (List.mem_cons_of_mem _ ho)
      have hnow' : ∀ o ∈ ops, createNowOk o = true :=
        fun o ho => hnow o (List.mem_cons_of_mem _ ho)
      have hmono := applyOp_tasks_len_mono op d (hclear op (List.mem_cons_self _ _))
      cases op with
      | create nc ni ti de ty pr dep fi ac =>
          simp only [createdIds] at hs
          rcases List.mem_cons.mp hs with h | h
          · refine ⟨nc, d.tasks.length + 1, h, ?_, Nat.le_refl _⟩
            have := hnow _ (List.mem_cons_self _ _)
            simpa [createNowOk] using this
          · obtain ⟨nc', k, rfl, hl, hk⟩ := ih _ hclear' hnow' s h
            refine ⟨nc', k, rfl, hl, ?_⟩
            rw [applyOp_create_len] at hk
            omega
      | update now tid u =>
          obtain ⟨nc', k, rfl, hl, hk⟩ := ih _ hclear' hnow' s hs
          exact ⟨nc', k, rfl, hl, by omega⟩
      | setStatus now tid st r e =>
          obtain ⟨nc', k, rfl, hl, hk⟩ := ih _ hclear' hnow' s hs
          exact ⟨nc', k, rfl, hl, by omega⟩
      | note now tid text author =>
          obtain ⟨nc', k, rfl, hl, hk⟩ := ih _ hclear' hnow' s hs
          exact ⟨nc', k, rfl, hl, by omega⟩
      | clear now => exact absurd (hclear _ (List.mem_cons_self _ _)) (by simp [isClearOp])
      | reset now =>
          obtain ⟨nc', k, rfl, hl, hk⟩ := ih _ hclear' hnow' s hs
          exact ⟨nc', k, rfl, hl, by omega⟩
      | setProject now st =>
          obtain ⟨nc', k, rfl, hl, hk⟩ := ih _ hclear' hnow' s hs
          exact ⟨nc', k, rfl, hl, by omega⟩

/-- Claim C8 (corrected).  The ids generated by `create_task` are
pairwise distinct among all tasks ever created provided no
`clear_completed_tasks` is interleaved (the `len(tasks) + 1` suffix is
then strictly increasing across creations, even within one wall-clock
second); with a clear interleaved, an id can be reused (see the
counterexample).  The 14-character hypothesis on each creation
timestamp reflects `strftime('%Y%m%d%H%M%S')`. -/
theorem task_ids_pairwise_distinct : ∀ (ops : List Op) (d : TasksData),
    (∀ op ∈ ops, isClearOp op = false) → (∀ op ∈ ops, createNowOk op = true) →
    (createdIds ops d).Pairwise (fun a b => a ≠ b) := by
  intro ops
  induction ops with
  | nil => intro d _ _; simp [createdIds]
  | cons op ops ih =>
      intro d hclear hnow
      have hclear' : ∀ o ∈ ops, isClearOp o = false :=
        fun o ho => hclear o (List.mem_cons_of_mem _ ho)
      have hnow' : ∀ o ∈ ops, createNowOk o = true :=
        fun o ho => hnow o (List.mem_cons_of_mem _ ho)
      cases op with
      | create nc ni ti de ty pr dep fi ac =>
          simp only [createdIds]
          refine List.Pairwise.cons ?_ (ih _ hclear' hnow')
          intro b hb heq
          obtain ⟨nc', k, rfl, hl', hk⟩ := createdIds_bound ops _ hclear' hnow' b hb
          rw [applyOp_create_len] at hk
          have hnc : nc.length = 14 := by
            have := hnow _ (List.mem_cons_self _ _)
            simpa [createNowOk] using this
          have := mkTaskId_inj_counter nc nc' (d.tasks.length + 1) k hnc hl'
            (by omega) (by omega) heq
          omega
      | update now tid u => exact ih _ hclear' hnow'
      | setStatus now tid st r e => exact ih _ hclear' hnow'
      | note now tid text author => exact ih _ hclear' hnow'
      | clear now => exact absurd (hclear _ (List.mem_cons_self _ _)) (by simp [isClearOp])
      | reset now => exact ih _ hclear' hnow'
      | setProject now st => exact ih _ hclear' hnow'

/-- Claim C8, counterexample.  Create a task at second
`20250101000000` (id `task_20250101000000_1`), complete it, run
`clear_completed_tasks`, and create another task within the same
second: `create_task` reuses the very same id, so the ids of the two
tasks ever created collide. -/
theorem task_id_collision_counterexample :
    createdIds collisionOps emptyStore = ["task_20250101000000_1", "task_20250101000000_1"] ∧
    ¬ (createdIds collisionOps emptyStore).Pairwise (fun a b => a ≠ b) := by
  constructor
  · decide
  · decide

/-- Witness for `task_ids_pairwise_distinct`: two same-second
creations with no clear. -/
theorem task_ids_pairwise_distinct_witness :
    (∀ op ∈ sameSecondOps, isClearOp op = false) ∧
    (∀ op ∈ sameSecondOps, createNowOk op = true) ∧
    (createdIds sameSecondOps emptyStore).Pairwise (fun a b => a ≠ b) :=
  ⟨by decide, by decide, task_ids_pairwise_distinct sameSecondOps emptyStore (by decide) (by decide)⟩

theorem assocFind_set_self {α : Type} (m : List (String × α)) (k : String) (v : α) :
    assocFind (assocSet m k v) k = some v := by
  induction m with
  | nil => simp [assocSet, assocFind]
  | cons p rest ih =>
      by_cases h : p.1 = k
      · simp [assocSet, h, assocFind]
      · simp only [assocSet, if_neg h]
        simpa [assocFind, List.find?_cons, h] using ih

theorem assocFind_set_ne {α : Type} (m : List (String × α)) (k k' : String) (v : α)
    (h : k' ≠ k) : assocFind (assocSet m k v) k' = assocFind m k' := by
  have hkk' : ¬ (k = k') := Ne.symm h
  induction m with
  | nil => simp [assocSet, assocFind, List.find?_cons, hkk']
  | cons p rest ih =>
      by_cases hp : p.1 = k
      · have h2 : ¬ (p.1 = k') := by rw [hp]; exact hkk'
        simp [assocSet, if_pos hp, assocFind, List.find?_cons, hkk', h2]
      · by_cases hp' : p.1 = k'
        · simp [assocSet, if_neg hp, assocFind, List.find?_cons, hp', h]
        · simp only [assocSet, if_neg hp]
          simpa [assocFind, List.find?_cons, hp'] using ih

theorem assocFind_push_self (m : List (String × List String)) (k v : String) :
    assocFind (assocPush m k v) k = some (((assocFind m k).getD []) ++ [v]) := by
  induction m with
  | nil => simp [assocPush, assocFind]
  | cons p rest ih =>
      by_cases h : p.1 = k
      · simp [assocPush, h, assocFind, List.find?_cons]
      · simp only [assocPush, if_neg h]
        simpa [assocFind, List.find?_cons, h] using ih

theorem assocFind_push_ne (m : List (String × List String)) (k k' v : String)
    (h : k' ≠ k) : assocFind (assocPush m k v) k' = assocFind m k' := by
  have hkk' : ¬ (k = k') := Ne.symm h
  induction m with
  | nil => simp [assocPush, assocFind, List.find?_cons, hkk']
  | cons p rest ih =>
      by_cases hp : p.1 = k
      · have h2 : ¬ (p.1 = k') := by rw [hp]; exact hkk'
        simp [assocPush, if_pos hp, assocFind, List.find?_cons, hkk', h2]
      · by_cases hp' : p.1 = k'
        · simp [assocPush, if_neg hp, assocFind, List.find?_cons, hp', h]
        · simp only [assocPush, if_neg hp]
          simpa [assocFind, List.find?_cons, hp'] using ih

theorem lookupDeps_push_self (m : List (String × List String)) (k v : String) :
    lookupDeps (assocPush m k v) k = lookupDeps m k ++ [v] := by
  simp [lookupDeps, assocFind_push_self]

theorem lookupDeps_push_ne (m : List (String × List String)) (k k' v : String)
    (h : k' ≠ k) : lookupDeps (assocPush m k v) k' = lookupDeps m k' := by
  simp [lookupDeps, assocFind_push_ne m k k' v h]

theorem mem_lookupDeps_push (m : List (String × List String)) (k v a b : String)
    (h : b ∈ lookupDeps m a) : b ∈ lookupDeps (assocPush m k v) a := by
  by_cases hk : a = k
  · subst hk; rw [lookupDeps_push_self]; exact List.mem_append_left _ h
  · rwa [lookupDeps_push_ne m k a v hk]

theorem mem_lookupDeps_push_self (m : List (String × List String)) (k v : String) :
    v ∈ lookupDeps (assocPush m k v) k := by
  rw [lookupDeps_push_self]; exact List.mem_append_right _ (List.mem_singleton.mpr rfl)


theorem mem_lookupDeps_pairFold (tid1 : String) :
    ∀ (rest : List String) (m : List (String × List String)) (a b : String),
    b ∈ lookupDeps m a →
    b ∈ lookupDeps
        (rest.foldl (fun d tid2 => assocPush (assocPush d tid1 tid2) tid2 tid1) m) a := by
  intro rest
  induction rest with
  | nil => intro m a b h; exact h
  | cons t ts ih =>
      intro m a b h
      exact ih _ a b (mem_lookupDeps_push _ _ _ _ _ (mem_lookupDeps_push _ _ _ _ _ h))

theorem pairFold_adds_forward (tid1 : String) :
    ∀ (rest : List String) (m : List (String × List String)) (b : String),
    b ∈ rest → b ≠ tid1 →
    b ∈ lookupDeps
        (rest.foldl (fun d tid2 => assocPush (assocPush d tid1 tid2) tid2 tid1) m) tid1 := by
  intro rest
  induction rest with
  | nil => intro m b hb _; cases hb
  | cons t ts ih =>
      intro m b hb hne
      rcases List.mem_cons.mp hb with rfl | hb'
      · rw [List.foldl_cons]
        refine mem_lookupDeps_pairFold tid1 ts _ tid1 b ?_
        rw [lookupDeps_push_ne (assocPush m tid1 b) b tid1 tid1 (Ne.symm hne)]
        exact mem_lookupDeps_push_self m tid1 b
      · rw [List.foldl_cons]
        exact ih _ b hb' hne

theorem pairFold_adds_backward (tid1 : String) :
    ∀ (rest : List String) (m : List (String × List String)) (a : String),
    a ∈ rest →
    tid1 ∈ lookupDeps
        (rest.foldl (fun d tid2 => assocPush (assocPush d tid1 tid2) tid2 tid1) m) a := by
  intro rest
  induction rest with
  | nil => intro m a ha; cases ha
  | cons t ts ih =>
      intro m a ha
      rcases List.mem_cons.mp ha with rfl | ha'
      · exact mem_lookupDeps_pairFold tid1 ts _ a tid1
          (mem_lookupDeps_push_self (assocPush m tid1 a) a tid1)
      · exact ih _ a ha'

theorem addConflictPairs_mono :
    ∀ (ids : List String) (m : List (String × List String)) (a b : String),
    b ∈ lookupDeps m a → b ∈ lookupDeps (addConflictPairs ids m) a := by
  intro ids
  induction ids with
  | nil => intro m a b h; exact h
  | cons tid1 rest ih =>
      intro m a b h
      exact ih _ a b (mem_lookupDeps_pairFold tid1 rest m a b h)

theorem addConflictPairs_adds :
    ∀ (ids : List String) (m : List (String × List String)) (a b : String),
    a ∈ ids → b ∈ ids → a ≠ b →
    b ∈ lookupDeps (addConflictPairs ids m) a := by
  intro ids
  induction ids with
  | nil => intro m a b ha _ _; cases ha
  | cons tid1 rest ih =>
      intro m a b ha hb hne
      rcases List.mem_cons.mp ha with rfl | ha'
      · rcases List.mem_cons.mp hb with rfl | hb'
        · exact absurd rfl hne
        · exact addConflictPairs_mono rest _ a b
            (pairFold_adds_forward a rest m b hb' (fun hh => hne hh.symm))
      · rcases List.mem_cons.mp hb with rfl | hb'
        · exact addConflictPairs_mono rest _ a b
            (pairFold_adds_backward b rest m a ha')
        · exact ih _ a b ha' hb' hne

theorem addConflictEdges_mono :
    ∀ (conflicts : List (String × List String)) (m : List (String × List String)) (a b : String),
    b ∈ lookupDeps m a → b ∈ lookupDeps (addConflictEdges m conflicts) a := by
  intro conflicts
  induction conflicts with
  | nil => intro m a b h; exact h
  | cons c cs ih =>
      intro m a b h
      exact ih _ a b (addConflictPairs_mono c.2 m a b h)

theorem addConflictEdges_adds :
    ∀ (conflicts : List (String × List String)) (m : List (String × List String))
      (f : String) (ids : List String) (a b : String),
    (f, ids) ∈ conflicts → a ∈ ids → b ∈ ids → a ≠ b →
    b ∈ lookupDeps (addConflictEdges m conflicts) a := by
  intro conflicts
  induction conflicts with
  | nil => intro m f ids a b hc _ _ _; cases hc
  | cons c cs ih =>
      intro m f ids a b hc ha hb hne
      rcases List.mem_cons.mp hc with rfl | hc'
      · exact addConflictEdges_mono cs _ a b (addConflictPairs_adds ids m a b ha hb hne)
      · exact ih _ f ids a b hc' ha hb hne

theorem filePush_mono (tid : String) :
    ∀ (files : List String) (m : List (String × List String)) (a b : String),
    b ∈ lookupDeps m a →
    b ∈ lookupDeps (files.foldl (fun m f => assocPush m f tid) m) a := by
  intro files
  induction files with
  | nil => intro m a b h; exact h
  | cons f fs ih =>
      intro m a b h
      exact ih _ a b (mem_lookupDeps_push _ _ _ _ _ h)

theorem filePush_adds (tid : String) :
    ∀ (files : List String) (m : List (String × List String)) (f : String),
    f ∈ files →
    tid ∈ lookupDeps (files.foldl (fun m f => assocPush m f tid) m) f := by
  intro files
  induction files with
  | nil => intro m f hf; cases hf
  | cons f0 fs ih =>
      intro m f hf
      rcases List.mem_cons.mp hf with rfl | hf'
      · exact filePush_mono tid fs _ f tid (mem_lookupDeps_push_self m f tid)
      · exact ih _ f hf'

theorem taskFold_mono :
    ∀ (ts : List Task) (m : List (String × List String)) (a b : String),
    b ∈ lookupDeps m a →
    b ∈ lookupDeps
        (ts.foldl (fun m t => t.files_to_modify.foldl (fun m f => assocPush m f t.id) m) m) a := by
  intro ts
  induction ts with
  | nil => intro m a b h; exact h
  | cons t0 ts' ih =>
      intro m a b h
      exact ih _ a b (filePush_mono t0.id t0.files_to_modify m a b h)

theorem taskFold_adds :
    ∀ (ts : List Task) (m : List (String × List String)) (t : Task) (f : String),
    t ∈ ts → f ∈ t.files_to_modify →
    t.id ∈ lookupDeps
        (ts.foldl (fun m t => t.files_to_modify.foldl (fun m f => assocPush m f t.id) m) m) f := by
  intro ts
  induction ts with
  | nil => intro m t f ht _; cases ht
  | cons t0 ts' ih =>
      intro m t f ht hf
      rw [List.foldl_cons]
      rcases List.mem_cons.mp ht with rfl | ht'
      · exact taskFold_mono ts' _ f t.id (filePush_adds t.id t.files_to_modify m f hf)
      · exact ih _ t f ht' hf

theorem fileToTasks_mem (tasks : List Task) (t : Task) (f : String)
    (ht : t ∈ tasks) (hf : f ∈ t.files_to_modify) :
    t.id ∈ lookupDeps (fileToTasks tasks) f :=
  taskFold_adds tasks [] t f ht hf


theorem one_lt_length_of_two_mem {α : Type} {l : List α} {a b : α}
    (ha : a ∈ l) (hb : b ∈ l) (h : a ≠ b) : 1 < l.length := by
  cases l with
  | nil => cases ha
  | cons x xs =>
      simp only [List.length_cons]
      suffices h0 : 0 < xs.length by omega
      rcases List.mem_cons.mp ha with rfl | ha'
      · rcases List.mem_cons.mp hb with rfl | hb'
        · exact absurd rfl h
        · exact List.length_pos.mpr (List.ne_nil_of_mem hb')
      · exact List.length_pos.mpr (List.ne_nil_of_mem ha')

theorem detect_mem (tasks : List Task) (f : String) (t1 t2 : Task)
    (h1 : t1 ∈ tasks) (h2 : t2 ∈ tasks) (hneid : t1.id ≠ t2.id)
    (hf1 : f ∈ t1.files_to_modify) (hf2 : f ∈ t2.files_to_modify) :
    ∃ ids, (f, ids) ∈ detectFileConflicts tasks ∧ t1.id ∈ ids ∧ t2.id ∈ ids := by
  have m1 := fileToTasks_mem tasks t1 f h1 hf1
  have m2 := fileToTasks_mem tasks t2 f h2 hf2
  cases hfind : assocFind (fileToTasks tasks) f with
  | none => rw [lookupDeps, hfind] at m1; cases m1
  | some ids =>
      rw [lookupDeps, hfind] at m1 m2
      simp only [Option.getD_some] at m1 m2
      have hlen : 1 < ids.length := one_lt_length_of_two_mem m1 m2 hneid
      have hpair : (f, ids) ∈ fileToTasks tasks := by
        unfold assocFind at hfind
        cases hfd : (fileToTasks tasks).find? (fun p => p.1 = f) with
        | none => rw [hfd] at hfind; cases hfind
        | some pr =>
            rw [hfd] at hfind
            have hfind2 : some pr.2 = some ids := hfind
            have hmem := List.mem_of_find?_eq_some hfd
            have hps := List.find?_some hfd
            have hp : pr.1 = f := of_decide_eq_true hps
            have : pr = (f, ids) := by
              cases pr
              simp only [Prod.mk.injEq]
              exact ⟨hp, by injection hfind2⟩
            rwa [this] at hmem
      refine ⟨ids, ?_, m1, m2⟩
      unfold detectFileConflicts
      exact List.mem_filter.mpr ⟨hpair, by simpa using hlen⟩

theorem buildTaskMap_find :
    ∀ (ts : List Task) (m : List (String × Task)) (tid : String) (t : Task),
    assocFind (ts.foldl (fun m t => assocSet m t.id t) m) tid = some t →
    (t ∈ ts ∧ t.id = tid) ∨ assocFind m tid = some t := by
  intro ts
  induction ts with
  | nil => intro m tid t h; exact Or.inr h
  | cons t0 ts' ih =>
      intro m tid t h
      rw [List.foldl_cons] at h
      rcases ih _ tid t h with ⟨hm, hid⟩ | hfind
      · exact Or.inl ⟨List.mem_cons_of_mem _ hm, hid⟩
      · by_cases htid : tid = t0.id
        · subst htid
          rw [assocFind_set_self] at hfind
          injection hfind with hfe
          subst hfe
          exact Or.inl ⟨List.mem_cons_self _ _, rfl⟩
        · rw [assocFind_set_ne _ _ _ _ htid] at hfind
          exact Or.inr hfind

theorem taskMap_find (tasks : List Task) (tid : String) (t : Task)
    (h : assocFind (buildTaskMap tasks) tid = some t) : t ∈ tasks ∧ t.id = tid := by
  rcases buildTaskMap_find tasks [] tid t h with hh | hh
  · exact hh
  · simp [assocFind] at hh


theorem groupsLoopIds_no_edge (deps : List (String × List String)) :
    ∀ (fuel : Nat) (remaining completedIds : List String),
    (∀ x ∈ remaining, x ∉ completedIds) →
    ∀ g ∈ groupsLoopIds deps fuel remaining completedIds,
    ∀ a ∈ g, ∀ b ∈ g, a ≠ b → b ∉ lookupDeps deps a := by
  intro fuel
  induction fuel with
  | zero =>
      intro remaining completedIds _ g hg
      simp [groupsLoopIds] at hg
  | succ fuel ih =>
      intro remaining completedIds hdisj g hg
      match remaining, hdisj, hg with
      | [], _, hg => simp [groupsLoopIds] at hg
      | tid0 :: rest, hdisj, hg =>
          rw [groupsLoopIds] at hg
          rcases List.mem_cons.mp hg with rfl | hg'
          · intro a ha b hb hne hmem
            unfold batchOf at ha hb
            by_cases hempty : (readyIds deps (tid0 :: rest) completedIds).isEmpty
            · rw [if_pos hempty] at ha hb
              simp only [List.take, List.mem_singleton] at ha hb
              exact hne (ha.trans hb.symm)
            · rw [if_neg hempty] at ha hb
              unfold readyIds at ha hb
              have hma := List.mem_filter.mp ha
              have hmb := List.mem_filter.mp hb
              have hall := List.all_eq_true.mp hma.2 b hmem
              have hbc : b ∈ completedIds := List.elem_iff.mp hall
              exact hdisj b hmb.1 hbc
          · refine ih _ _ ?_ g hg'
            intro x hx
            have hx' := List.mem_filter.mp hx
            have hnb : ¬ ((batchOf deps (tid0 :: rest) completedIds).contains x = true) :=
              of_decide_eq_true hx'.2
            intro hmem
            rcases List.mem_append.mp hmem with h1 | h2
            · exact hdisj x hx'.1 h1
            · exact hnb (List.elem_iff.mpr h2)


/-- Claim C2 (confirmed).  File-conflict serialization: for every task
list with pairwise-distinct ids (as `create_task` generates) and every
pair of distinct tasks sharing a path in `files_to_modify`,
`_get_execution_groups` never places both in the same batch — a shared
file induces mutual synthetic dependency edges, and a batch is either
the ready set (whose members' edges all point into previously completed
ids, never at a batch sibling) or a forced singleton.  In particular
the Scenario B pair (both declaring `a.py`, no mutual dependency)
yields two separate singleton batches. -/
theorem file_conflict_serialization :
    (∀ (tasks : List Task), (tasks.map (fun t => t.id)).Nodup →
      ∀ g ∈ getExecutionGroups tasks, ∀ t1 ∈ g, ∀ t2 ∈ g, t1 ≠ t2 →
        ∀ f, f ∈ t1.files_to_modify → f ∉ t2.files_to_modify) ∧
    (getExecutionGroups [conflictT1, conflictT2]).map (fun g => g.map (fun t => t.id)) =
      [["t1"], ["t2"]] := by
  constructor
  · intro tasks hnodup g hg t1 ht1 t2 ht2 hne f hf1 hf2
    by_cases hE : tasks.isEmpty
    · unfold getExecutionGroups at hg
      rw [if_pos hE] at hg
      cases hg
    · unfold getExecutionGroups at hg
      rw [if_neg hE] at hg
      obtain ⟨gid, hgid, rfl⟩ := List.mem_map.mp hg
      obtain ⟨a1, ha1, hfind1⟩ := List.mem_filterMap.mp ht1
      obtain ⟨a2, ha2, hfind2⟩ := List.mem_filterMap.mp ht2
      obtain ⟨htm1, hid1⟩ := taskMap_find tasks a1 t1 hfind1
      obtain ⟨htm2, hid2⟩ := taskMap_find tasks a2 t2 hfind2
      have hneid : t1.id ≠ t2.id := fun hh =>
        hne (List.inj_on_of_nodup_map hnodup htm1 htm2 hh)
      obtain ⟨ids, hconf, hm1, hm2⟩ := detect_mem tasks f t1 t2 htm1 htm2 hneid hf1 hf2
      have hedge : t2.id ∈ lookupDeps
          (addConflictEdges (baseDeps tasks) (detectFileConflicts tasks)) t1.id :=
        addConflictEdges_adds _ _ f ids t1.id t2.id hconf hm1 hm2 hneid
      have hnoedge := groupsLoopIds_no_edge
        (addConflictEdges (baseDeps tasks) (detectFileConflicts tasks))
        ((tasks.map (fun t => t.id)).eraseDups).length
        ((tasks.map (fun t => t.id)).eraseDups) []
        (fun x _ hx => (List.not_mem_nil x) hx)
        gid hgid a1 ha1 a2 ha2
        (by rw [← hid1, ← hid2]; exact hneid)
      rw [← hid1, ← hid2] at hnoedge
      exact hnoedge hedge
  · decide

/-- Witness for `file_conflict_serialization` at the Scenario B pair. -/
theorem file_conflict_serialization_witness :
    ([conflictT1, conflictT2].map (fun t => t.id)).Nodup ∧
    ∀ g ∈ getExecutionGroups [conflictT1, conflictT2], ∀ t1 ∈ g, ∀ t2 ∈ g, t1 ≠ t2 →
      ∀ f, f ∈ t1.files_to_modify → f ∉ t2.files_to_modify :=
  ⟨by decide, file_conflict_serialization.1 [conflictT1, conflictT2] (by decide)⟩


theorem find?_updateFirst_ne (f : Task → Task) (tid x : String)
    (hf : ∀ t, (f t).id = t.id) (hne : x ≠ tid) :
    ∀ l : List Task,
    (updateFirst (fun t => t.id = tid) f l).find? (fun t => t.id = x) =
      l.find? (fun t => t.id = x) := by
  intro l
  induction l with
  | nil => rfl
  | cons t ts ih =>
      have h3 : ¬ (tid = x) := fun hh => hne hh.symm
      by_cases hp : t.id = tid
      · have h1 : ¬ ((f t).id = x) := by rw [hf, hp]; exact h3
        have h2 : ¬ (t.id = x) := by rw [hp]; exact h3
        simp [updateFirst, hp, List.find?_cons, h1, h2, h3]
      · by_cases hq : t.id = x
        · have h4 : ¬ (x = tid) := hne
          simp [updateFirst, hp, List.find?_cons, hq, h3, h4]
        · simp [updateFirst, hp, List.find?_cons, hq, h3, ih]

theorem getTask_setTaskStatus_ne (now : String) (d : TasksData) (tid st : String)
    (r e : Option String) (x : String) (hne : x ≠ tid) :
    getTask (setTaskStatus now d tid st r e).2 x = getTask d x := by
  unfold setTaskStatus updateTask
  cases hg : getTask d tid with
  | none => rfl
  | some t =>
      show getTask (saveTasks _ _) x = getTask d x
      unfold getTask saveTasks
      exact find?_updateFirst_ne (applyUpdates (statusUpdates now st r e)) tid x (fun t => rfl) hne d.tasks

theorem executeOne_store_ne (now : String) (oracle : String → Bool × String)
    (st : RunState) (t : Task) (x : String) (hne : x ≠ t.id) :
    getTask (executeOne now oracle st t).store x = getTask st.store x := by
  unfold executeOne
  by_cases h : (oracle t.id).1
  · simp only [h, if_pos]
    rw [getTask_setTaskStatus_ne _ _ _ _ _ _ _ hne,
      getTask_setTaskStatus_ne _ _ _ _ _ _ _ hne]
  · simp only [h, if_neg, Bool.false_eq_true, not_false_eq_true]
    rw [getTask_setTaskStatus_ne _ _ _ _ _ _ _ hne,
      getTask_setTaskStatus_ne _ _ _ _ _ _ _ hne]

theorem executeOne_startLog (now : String) (oracle : String → Bool × String)
    (st : RunState) (t : Task) :
    (executeOne now oracle st t).startLog = st.startLog ++ [(t, st.store)] := by
  unfold executeOne
  by_cases h : (oracle t.id).1 <;> simp [h]

theorem executeOne_statusCalls (now : String) (oracle : String → Bool × String)
    (st : RunState) (t : Task) :
    ∀ c ∈ (executeOne now oracle st t).statusCalls, c ∈ st.statusCalls ∨ c.1 = t.id := by
  intro c hc
  unfold executeOne at hc
  by_cases h : (oracle t.id).1 <;> simp [h] at hc <;>
    rcases hc with hc | hc | hc <;> simp [hc]

theorem executeOne_results_ne (now : String) (oracle : String → Bool × String)
    (st : RunState) (t : Task) (x : String) (hne : x ≠ t.id) :
    assocFind (executeOne now oracle st t).results x = assocFind st.results x := by
  unfold executeOne
  by_cases h : (oracle t.id).1 <;> simp only [h, if_pos, if_neg, Bool.false_eq_true, not_false_eq_true] <;>
    exact assocFind_set_ne _ _ _ _ hne

theorem executeOne_inv (now : String) (oracle : String → Bool × String)
    (d : TasksData) (st : RunState) (t : Task)
    (hpend : taskPendingIn d t) (hinv : preservesCompleted d st.store) :
    preservesCompleted d (executeOne now oracle st t).store := by
  intro x hx
  have hne : x ≠ t.id := by
    intro he
    subst he
    have hp' : (getTask d t.id).map (fun u => u.status) = some "pending" := hpend
    rw [hx] at hp'
    exact absurd hp' (by decide)
  rw [executeOne_store_ne _ _ _ _ _ hne]
  exact hinv x hx

theorem execFold_inv (now : String) (oracle : String → Bool × String) (d : TasksData) :
    ∀ (ts : List Task) (st : RunState),
    (∀ t ∈ ts, depsCompletedIn d t ∧ taskPendingIn d t) →
    preservesCompleted d st.store → startLogOk st.startLog →
    preservesCompleted d (ts.foldl (executeOne now oracle) st).store ∧
    startLogOk ((ts.foldl (executeOne now oracle) st)).startLog := by
  intro ts
  induction ts with
  | nil => intro st _ hinv hlog; exact ⟨hinv, hlog⟩
  | cons t ts' ih =>
      intro st hgood hinv hlog
      rw [List.foldl_cons]
      refine ih _ (fun u hu => hgood u (List.mem_cons_of_mem _ hu)) ?_ ?_
      · exact executeOne_inv now oracle d st t (hgood t (List.mem_cons_self _ _)).2 hinv
      · intro p hp
        rw [executeOne_startLog] at hp
        rcases List.mem_append.mp hp with hp' | hp'
        · exact hlog p hp'
        · have hpe : p = (t, st.store) := List.mem_singleton.mp hp'
          subst hpe
          intro dep hdep
          have hd := (hgood t (List.mem_cons_self _ _)).1 dep hdep
          rw [show getTask st.store dep = getTask d dep from hinv dep hd]
          exact hd

theorem scanFold_frame :
    ∀ (group : List Task) (acc : RunState × List Task),
    (group.foldl scanStep acc).1.store = acc.1.store ∧
    (group.foldl scanStep acc).1.statusCalls = acc.1.statusCalls ∧
    (group.foldl scanStep acc).1.startLog = acc.1.startLog := by
  intro group
  induction group with
  | nil => intro acc; exact ⟨rfl, rfl, rfl⟩
  | cons t ts ih =>
      intro acc
      rw [List.foldl_cons]
      have step : (scanStep acc t).1.store = acc.1.store ∧
          (scanStep acc t).1.statusCalls = acc.1.statusCalls ∧
          (scanStep acc t).1.startLog = acc.1.startLog := by
        unfold scanStep
        by_cases h : (skipCheck acc.1.results t).isEmpty <;> simp [h]
      obtain ⟨s1, s2, s3⟩ := ih (scanStep acc t)
      exact ⟨s1.trans step.1, s2.trans step.2.1, s3.trans step.2.2⟩

theorem scanFold_ready_sub :
    ∀ (group : List Task) (acc : RunState × List Task),
    ∀ t ∈ (group.foldl scanStep acc).2, t ∈ acc.2 ∨ t ∈ group := by
  intro group
  induction group with
  | nil => intro acc t ht; exact Or.inl ht
  | cons t0 ts ih =>
      intro acc t ht
      rw [List.foldl_cons] at ht
      rcases ih (scanStep acc t0) t ht with hin | hin
      · unfold scanStep at hin
        by_cases h : (skipCheck acc.1.results t0).isEmpty
        · rw [if_pos h] at hin
          rcases List.mem_append.mp hin with h1 | h1
          · exact Or.inl h1
          · exact Or.inr (List.mem_singleton.mp h1 ▸ List.mem_cons_self _ _)
        · rw [if_neg h] at hin
          exact Or.inl hin
      · exact Or.inr (List.mem_cons_of_mem _ hin)

theorem runGroup_inv (now : String) (oracle : String → Bool × String) (d : TasksData)
    (st : RunState) (group : List Task)
    (hgood : ∀ t ∈ group, depsCompletedIn d t ∧ taskPendingIn d t)
    (hinv : preservesCompleted d st.store) (hlog : startLogOk st.startLog) :
    preservesCompleted d (runGroup now oracle st group).store ∧
    startLogOk (runGroup now oracle st group).startLog := by
  unfold runGroup
  obtain ⟨s1, -, s3⟩ := scanFold_frame group (st, [])
  refine execFold_inv now oracle d _ _ ?_ ?_ ?_
  · intro t ht
    rcases scanFold_ready_sub group (st, []) t ht with h | h
    · cases h
    · exact hgood t h
  · rw [s1]; exact hinv
  · rw [s3]; exact hlog

theorem runGroups_inv (now : String) (oracle : String → Bool × String) (d : TasksData) :
    ∀ (groups : List (List Task)) (st : RunState),
    (∀ g ∈ groups, ∀ t ∈ g, depsCompletedIn d t ∧ taskPendingIn d t) →
    preservesCompleted d st.store → startLogOk st.startLog →
    preservesCompleted d (runGroups now oracle st groups).store ∧
    startLogOk (runGroups now oracle st groups).startLog := by
  intro groups
  induction groups with
  | nil => intro st _ hinv hlog; exact ⟨hinv, hlog⟩
  | cons g gs ih =>
      intro st hgood hinv hlog
      unfold runGroups
      rw [List.foldl_cons]
      have hstep := runGroup_inv now oracle d st g
        (hgood g (List.mem_cons_self _ _)) hinv hlog
      exact ih _ (fun g' hg' => hgood g' (List.mem_cons_of_mem _ hg')) hstep.1 hstep.2


theorem getTask_id (d : TasksData) (tid : String) (t : Task)
    (h : getTask d tid = some t) : t ∈ d.tasks ∧ t.id = tid := by
  have h' : d.tasks.find? (fun u => u.id = tid) = some t := h
  have hp := List.find?_some h'
  exact ⟨List.mem_of_find?_eq_some h', of_decide_eq_true hp⟩

theorem filterStep_tasks (d : TasksData) (snap : List (String × String))
    (acc : FilterResult) (tid : String) :
    ∀ t ∈ (filterStep d snap acc tid).tasks,
      t ∈ acc.tasks ∨
      (getTask d tid = some t ∧ t.status = "pending" ∧
        ∀ dep ∈ t.dependencies, assocFind snap dep = some "completed") := by
  intro t ht
  unfold filterStep at ht
  split at ht
  · exact Or.inl ht
  · next t0 hg =>
      split at ht
      · exact Or.inl ht
      · next hst =>
          split at ht
          · next hem =>
              rcases List.mem_append.mp ht with h1 | h1
              · exact Or.inl h1
              · have het : t = t0 := List.mem_singleton.mp h1
                subst het
                refine Or.inr ⟨hg, not_not.mp hst, ?_⟩
                intro dep hdep
                rw [List.isEmpty_iff] at hem
                have := List.filter_eq_nil_iff.mp hem dep hdep
                simpa using this
          · exact Or.inl ht

theorem filterFold_tasks (d : TasksData) (snap : List (String × String)) :
    ∀ (ids : List String) (acc : FilterResult),
    ∀ t ∈ (ids.foldl (filterStep d snap) acc).tasks,
      t ∈ acc.tasks ∨
      ∃ tid, getTask d tid = some t ∧ t.status = "pending" ∧
        ∀ dep ∈ t.dependencies, assocFind snap dep = some "completed" := by
  intro ids
  induction ids with
  | nil => intro acc t ht; exact Or.inl ht
  | cons tid ids' ih =>
      intro acc t ht
      rw [List.foldl_cons] at ht
      rcases ih _ t ht with hin | hin
      · rcases filterStep_tasks d snap acc tid t hin with h1 | h1
        · exact Or.inl h1
        · exact Or.inr ⟨tid, h1⟩
      · exact Or.inr hin

theorem filterRequested_tasks (d : TasksData) (taskIds : List String) :
    ∀ t ∈ (filterRequested d taskIds).tasks,
      getTask d t.id = some t ∧ t.status = "pending" ∧
      ∀ dep ∈ t.dependencies, assocFind (statusSnapshot d) dep = some "completed" := by
  intro t ht
  rcases filterFold_tasks d (statusSnapshot d) taskIds _ t ht with h | ⟨tid, hg, hst, hdep⟩
  · cases h
  · obtain ⟨-, hid⟩ := getTask_id d tid t hg
    exact ⟨hid ▸ hg, hst, hdep⟩

theorem statusSnapshot_some :
    ∀ (ts : List Task) (m : List (String × String)) (x st : String),
    assocFind (ts.foldl (fun m t => assocSet m t.id t.status) m) x = some st →
    (∃ t0, t0 ∈ ts ∧ t0.id = x ∧ t0.status = st) ∨ assocFind m x = some st := by
  intro ts
  induction ts with
  | nil => intro m x st h; exact Or.inr h
  | cons t0 ts' ih =>
      intro m x st h
      rw [List.foldl_cons] at h
      rcases ih _ x st h with ⟨t1, hm, hid, hst⟩ | hfind
      · exact Or.inl ⟨t1, List.mem_cons_of_mem _ hm, hid, hst⟩
      · by_cases htid : x = t0.id
        · subst htid
          rw [assocFind_set_self] at hfind
          injection hfind with hfe
          exact Or.inl ⟨t0, List.mem_cons_self _ _, rfl, hfe⟩
        · rw [assocFind_set_ne _ _ _ _ htid] at hfind
          exact Or.inr hfind

theorem snap_completed_store (d : TasksData)
    (hnodup : (d.tasks.map (fun t => t.id)).Nodup) (x st : String)
    (h : assocFind (statusSnapshot d) x = some st) :
    (getTask d x).map (fun u => u.status) = some st := by
  rcases statusSnapshot_some d.tasks [] x st h with ⟨t0, ht0, hid, hst⟩ | hh
  · cases hf : getTask d x with
    | none =>
        exfalso
        have := List.find?_eq_none.mp hf t0 ht0
        simp [hid] at this
    | some t1 =>
        obtain ⟨ht1m, ht1id⟩ := getTask_id d x t1 hf
        have het : t1 = t0 :=
          List.inj_on_of_nodup_map hnodup ht1m ht0 (by rw [ht1id, hid])
        simp [het, hst]
  · simp [assocFind] at hh

theorem groups_sub (tasks : List Task) :
    ∀ g ∈ getExecutionGroups tasks, ∀ t ∈ g, t ∈ tasks := by
  intro g hg t ht
  unfold getExecutionGroups at hg
  by_cases hE : tasks.isEmpty
  · rw [if_pos hE] at hg; cases hg
  · rw [if_neg hE] at hg
    obtain ⟨gid, -, rfl⟩ := List.mem_map.mp hg
    obtain ⟨a, -, hfind⟩ := List.mem_filterMap.mp ht
    exact (taskMap_find tasks a t hfind).1


theorem runGroupReal_frame (st : RunState) (group : List Task) :
    (exceptState (runGroupReal st group)).store = st.store ∧
    (exceptState (runGroupReal st group)).statusCalls = st.statusCalls ∧
    (exceptState (runGroupReal st group)).startLog = st.startLog := by
  unfold runGroupReal
  obtain ⟨s1, s2, s3⟩ := scanFold_frame group (st, [])
  by_cases h : ((group.foldl scanStep (st, [])).2).isEmpty
  · rw [if_pos h]; exact ⟨s1, s2, s3⟩
  · rw [if_neg h]; exact ⟨s1, s2, s3⟩

theorem runGroupsReal_frame : ∀ (groups : List (List Task)) (st : RunState),
    (exceptState (runGroupsReal st groups)).store = st.store ∧
    (exceptState (runGroupsReal st groups)).statusCalls = st.statusCalls ∧
    (exceptState (runGroupsReal st groups)).startLog = st.startLog := by
  intro groups
  induction groups with
  | nil => intro st; exact ⟨rfl, rfl, rfl⟩
  | cons g gs ih =>
      intro st
      obtain ⟨f1, f2, f3⟩ := runGroupReal_frame st g
      show (exceptState (runGroupsReal st (g :: gs))).store = st.store ∧ _ ∧ _
      unfold runGroupsReal
      cases h : runGroupReal st g with
      | ok st1 =>
          rw [h] at f1 f2 f3
          obtain ⟨i1, i2, i3⟩ := ih st1
          exact ⟨i1.trans f1, i2.trans f2, i3.trans f3⟩
      | error st1 =>
          rw [h] at f1 f2 f3
          exact ⟨f1, f2, f3⟩

/-- Claim C1 (corrected).  Serial path: `assign_task` rejects a task
with an unmet dependency, and for every task it does execute, every id
in its `dependencies` list has status `completed` in the `TaskStore` at
the moment the task starts (the ghost start log records the store at
each start).  Parallel path, as it actually runs: a requested task is
never deferred to a later batch — any task with a dependency not
already globally `completed` is excluded up front as
dependency-blocked — and no surviving task ever starts either, because
`execute_with_semaphore`'s first statement `task_log(...)`
(leader_worker.py:1571) is an undefined name: every batch with a ready
task raises `NameError` before the first `set_task_status` call, so
the run always ends with the store exactly as it was, no status call
and an empty start log, and the gate is vacuous there.  The last
conjunct states the gate for the counterfactual model
`assignTasksParallelSmart`, in which the broken log line is ignored and
execution proceeds as the code intends: there too every started task
has all dependencies completed in the store at its start moment,
transitively across batches and regardless of worker failures.  The
`Nodup` hypothesis reflects the id uniqueness `create_task` provides. -/
theorem dependency_gate :
    (∀ (now : String) (oracle : String → Bool × String) (d : TasksData) (taskId : String),
      ∀ p ∈ (assignTask now oracle d taskId).2.2, depsCompletedIn p.2 p.1) ∧
    (∀ (d : TasksData) (taskIds : List String),
      (exceptState (assignTasksParallelReal d taskIds).2.2).store = d ∧
      (exceptState (assignTasksParallelReal d taskIds).2.2).statusCalls = [] ∧
      (exceptState (assignTasksParallelReal d taskIds).2.2).startLog = []) ∧
    (∀ (now : String) (oracle : String → Bool × String) (d : TasksData) (taskIds : List String),
      (d.tasks.map (fun t => t.id)).Nodup →
      startLogOk ((assignTasksParallelSmart now oracle d taskIds).2.2).startLog) := by
  refine ⟨?_, ?_, ?_⟩
  · intro now oracle d taskId p hp
    simp only [assignTask] at hp
    split at hp
    · cases hp
    · next t hg =>
        split at hp
        · cases hp
        · next hst =>
            split at hp
            · cases hp
            · next hunmet =>
                have hem : checkUnmetDependencies d t.dependencies = [] := by
                  rw [← List.isEmpty_iff]
                  exact not_not.mp hunmet
                have hpe : p = (t, d) := by
                  split at hp <;> exact List.mem_singleton.mp hp
                subst hpe
                intro dep hdep
                have hnp := List.filter_eq_nil_iff.mp hem dep hdep
                cases hgd : getTask d dep with
                | none => rw [hgd] at hnp; simp at hnp
                | some u =>
                    rw [hgd] at hnp
                    simp only [decide_not, Bool.not_eq_true', decide_eq_false_iff_not,
                      not_not] at hnp
                    simp [hgd, hnp]
  · intro d taskIds
    unfold assignTasksParallelReal
    by_cases hfe : (filterRequested d taskIds).tasks.isEmpty
    · rw [if_pos hfe]; exact ⟨rfl, rfl, rfl⟩
    · rw [if_neg hfe]
      exact runGroupsReal_frame (getExecutionGroups (filterRequested d taskIds).tasks)
        ⟨d, [], [], []⟩
  · intro now oracle d taskIds hnodup
    unfold assignTasksParallelSmart
    by_cases hfe : (filterRequested d taskIds).tasks.isEmpty
    · rw [if_pos hfe]; intro p hp; cases hp
    · rw [if_neg hfe]
      refine (runGroups_inv now oracle d _ _ ?_ ?_ ?_).2
      · intro g hg t ht
        have htt : t ∈ (filterRequested d taskIds).tasks :=
          groups_sub _ g hg t ht
        obtain ⟨hgt, hpend, hdeps⟩ := filterRequested_tasks d taskIds t htt
        constructor
        · intro dep hdep
          exact snap_completed_store d hnodup dep "completed" (hdeps dep hdep)
        · unfold taskPendingIn
          rw [hgt]
          simp [hpend]
      · intro x _; rfl
      · intro p hp; cases hp

/-- Claim C1, counterexample: requesting pending `t1` and pending `t2`
(which depends on `t1`) together, `t2` is dependency-blocked at entry
and appears in no batch — it is excluded, not deferred to a later
batch — and the single batch `[t1]` then aborts with the `task_log`
`NameError` before any status write: the run crashes having made no
`set_task_status` call and started no task, and both `t1` and `t2` are
still `pending` afterwards.  In particular `t2` never starts (so the
claimed start-time guarantee is never exercised by this path), and
even `t1` does not complete. -/
theorem dependency_gate_counterexample :
    depRunReal.1.blocked = ["t2(依赖:t1)"] ∧
    depRunReal.2.1.map (fun g => g.map (fun t => t.id)) = [["t1"]] ∧
    isCrash depRunReal.2.2 = true ∧
    (exceptState depRunReal.2.2).statusCalls = [] ∧
    (exceptState depRunReal.2.2).startLog = [] ∧
    (getTask (exceptState depRunReal.2.2).store "t1").map (fun t => t.status) =
      some "pending" ∧
    (getTask (exceptState depRunReal.2.2).store "t2").map (fun t => t.status) =
      some "pending" := by
  decide

/-- Witness for `dependency_gate`: the serial conjunct applied to a
concrete executed task (pending `t9` whose dependency `d1` is
completed), the real-path conjunct at the two-task store, and the
counterfactual conjunct with its `Nodup` hypothesis discharged. -/
theorem dependency_gate_witness :
    ((serialTask, serialStore) ∈
      (assignTask "now" (fun _ => (true, "ok")) serialStore "t9").2.2) ∧
    depsCompletedIn serialStore serialTask ∧
    (exceptState (assignTasksParallelReal depStore ["t1", "t2"]).2.2).store = depStore ∧
    (depStore.tasks.map (fun t => t.id)).Nodup ∧
    startLogOk ((assignTasksParallelSmart "now" (fun _ => (true, "ok"))
      depStore ["t1", "t2"]).2.2).startLog := by
  refine ⟨by decide, ?_, ?_, by decide, ?_⟩
  · exact dependency_gate.1 "now" (fun _ => (true, "ok")) serialStore "t9"
      (serialTask, serialStore) (by decide)
  · exact (dependency_gate.2.1 depStore ["t1", "t2"]).1
  · exact dependency_gate.2.2 "now" (fun _ => (true, "ok")) depStore ["t1", "t2"] (by decide)


theorem executeOne_results_self (now : String) (oracle : String → Bool × String)
    (st : RunState) (t : Task) :
    ∃ r, assocFind (executeOne now oracle st t).results t.id = some r ∧
      strStartsWith r "⏭️" = false := by
  unfold executeOne
  by_cases h : (oracle t.id).1
  · refine ⟨"✅ 完成", ?_, by decide⟩
    simp only [h, if_pos]
    exact assocFind_set_self _ _ _
  · refine ⟨"❌ 失败: " ++ strTake (oracle t.id).2 100, ?_, rfl⟩
    simp only [h, if_neg, Bool.false_eq_true, not_false_eq_true]
    exact assocFind_set_self _ _ _

theorem execFold_frame_ne (now : String) (oracle : String → Bool × String) :
    ∀ (ts : List Task) (st : RunState) (tid : String),
    (∀ u ∈ ts, u.id ≠ tid) →
    assocFind (ts.foldl (executeOne now oracle) st).results tid = assocFind st.results tid ∧
    getTask (ts.foldl (executeOne now oracle) st).store tid = getTask st.store tid ∧
    ∀ c ∈ (ts.foldl (executeOne now oracle) st).statusCalls, c ∈ st.statusCalls ∨ c.1 ≠ tid := by
  intro ts
  induction ts with
  | nil => intro st tid _; exact ⟨rfl, rfl, fun c hc => Or.inl hc⟩
  | cons u ts' ih =>
      intro st tid hne
      rw [List.foldl_cons]
      have hu : u.id ≠ tid := hne u (List.mem_cons_self _ _)
      have hx : tid ≠ u.id := fun hh => hu hh.symm
      obtain ⟨i1, i2, i3⟩ := ih (executeOne now oracle st u) tid
        (fun v hv => hne v (List.mem_cons_of_mem _ hv))
      refine ⟨i1.trans (executeOne_results_ne now oracle st u tid hx), ?_, ?_⟩
      · exact i2.trans (executeOne_store_ne now oracle st u tid hx)
      · intro c hc
        rcases i3 c hc with h1 | h1
        · rcases executeOne_statusCalls now oracle st u c h1 with h2 | h2
          · exact Or.inl h2
          · exact Or.inr (by rw [h2]; exact hu)
        · exact Or.inr h1

theorem execFold_terminal (now : String) (oracle : String → Bool × String) :
    ∀ (ts : List Task) (st : RunState) (tid : String),
    ((∃ u ∈ ts, u.id = tid) ∨
      (∃ r0, assocFind st.results tid = some r0 ∧ strStartsWith r0 "⏭️" = false)) →
    ∃ r, assocFind (ts.foldl (executeOne now oracle) st).results tid = some r ∧
      strStartsWith r "⏭️" = false := by
  intro ts
  induction ts with
  | nil =>
      intro st tid h
      rcases h with ⟨u, hu, -⟩ | ⟨r0, h1, h2⟩
      · cases hu
      · exact ⟨r0, h1, h2⟩
  | cons u ts' ih =>
      intro st tid h
      rw [List.foldl_cons]
      by_cases hid : u.id = tid
      · refine ih _ tid (Or.inr ?_)
        obtain ⟨r, hr, hns⟩ := executeOne_results_self now oracle st u
        exact ⟨r, hid ▸ hr, hns⟩
      · rcases h with ⟨v, hv, hvid⟩ | ⟨r0, h1, h2⟩
        · rcases List.mem_cons.mp hv with rfl | hv'
          · exact absurd hvid hid
          · exact ih _ tid (Or.inl ⟨v, hv', hvid⟩)
        · refine ih _ tid (Or.inr ⟨r0, ?_, h2⟩)
          rw [executeOne_results_ne now oracle st u tid (fun hh => hid hh.symm)]
          exact h1

theorem scanFold_frame_ne :
    ∀ (g : List Task) (acc : RunState × List Task) (tid : String),
    (∀ u ∈ g, u.id ≠ tid) →
    assocFind (g.foldl scanStep acc).1.results tid = assocFind acc.1.results tid := by
  intro g
  induction g with
  | nil => intro acc tid _; rfl
  | cons u g' ih =>
      intro acc tid hne
      rw [List.foldl_cons]
      have step : assocFind (scanStep acc u).1.results tid = assocFind acc.1.results tid := by
        unfold scanStep
        by_cases h : (skipCheck acc.1.results u).isEmpty
        · rw [if_pos h]
        · rw [if_neg h]
          exact assocFind_set_ne _ _ _ _ (fun hh => hne u (List.mem_cons_self _ _) hh.symm)
      exact (ih _ tid (fun v hv => hne v (List.mem_cons_of_mem _ hv))).trans step

theorem runGroup_frame_ne (now : String) (oracle : String → Bool × String)
    (st : RunState) (g : List Task) (tid : String) (hne : ∀ u ∈ g, u.id ≠ tid) :
    assocFind (runGroup now oracle st g).results tid = assocFind st.results tid ∧
    getTask (runGroup now oracle st g).store tid = getTask st.store tid ∧
    ∀ c ∈ (runGroup now oracle st g).statusCalls, c ∈ st.statusCalls ∨ c.1 ≠ tid := by
  unfold runGroup
  have hready : ∀ u ∈ (g.foldl scanStep (st, [])).2, u.id ≠ tid := by
    intro u hu
    rcases scanFold_ready_sub g (st, []) u hu with h | h
    · cases h
    · exact hne u h
  obtain ⟨e1, e2, e3⟩ := execFold_frame_ne now oracle _ _ tid hready
  obtain ⟨s1, s2, s3⟩ := scanFold_frame g (st, [])
  refine ⟨e1.trans (scanFold_frame_ne g (st, []) tid hne), e2.trans (by rw [s1]), ?_⟩
  intro c hc
  rcases e3 c hc with h1 | h1
  · rw [s2] at h1; exact Or.inl h1
  · exact Or.inr h1

theorem runGroups_frame_ne (now : String) (oracle : String → Bool × String) :
    ∀ (groups : List (List Task)) (st : RunState) (tid : String),
    (∀ g ∈ groups, ∀ u ∈ g, u.id ≠ tid) →
    assocFind (runGroups now oracle st groups).results tid = assocFind st.results tid ∧
    getTask (runGroups now oracle st groups).store tid = getTask st.store tid ∧
    ∀ c ∈ (runGroups now oracle st groups).statusCalls, c ∈ st.statusCalls ∨ c.1 ≠ tid := by
  intro groups
  induction groups with
  | nil => intro st tid _; exact ⟨rfl, rfl, fun c hc => Or.inl hc⟩
  | cons g gs ih =>
      intro st tid hne
      unfold runGroups
      rw [List.foldl_cons]
      obtain ⟨r1, r2, r3⟩ := runGroup_frame_ne now oracle st g tid
        (hne g (List.mem_cons_self _ _))
      obtain ⟨i1, i2, i3⟩ := ih (runGroup now oracle st g) tid
        (fun g' hg' => hne g' (List.mem_cons_of_mem _ hg'))
      refine ⟨i1.trans r1, i2.trans r2, ?_⟩
      intro c hc
      rcases i3 c hc with h1 | h1
      · exact r3 c h1
      · exact Or.inr h1


theorem scanFold_ready_mono :
    ∀ (g : List Task) (acc : RunState × List Task),
    ∀ u ∈ acc.2, u ∈ (g.foldl scanStep acc).2 := by
  intro g
  induction g with
  | nil => intro acc u hu; exact hu
  | cons t g' ih =>
      intro acc u hu
      rw [List.foldl_cons]
      refine ih _ u ?_
      unfold scanStep
      by_cases h : (skipCheck acc.1.results t).isEmpty
      · rw [if_pos h]; exact List.mem_append_left _ hu
      · rw [if_neg h]; exact hu

theorem scanFold_tid :
    ∀ (g : List Task) (acc : RunState × List Task) (tid : String),
    (g.map (fun t => t.id)).Nodup →
    (∀ u ∈ acc.2, u.id ≠ tid) →
    assocFind acc.1.results tid = none →
    (assocFind (g.foldl scanStep acc).1.results tid = none ∧
      ∀ u ∈ (g.foldl scanStep acc).2, u.id ≠ tid) ∨
    (∃ fd, assocFind (g.foldl scanStep acc).1.results tid = some (skipEntry fd) ∧
      ∀ u ∈ (g.foldl scanStep acc).2, u.id ≠ tid) ∨
    (∃ u ∈ (g.foldl scanStep acc).2, u.id = tid) := by
  intro g
  induction g with
  | nil => intro acc tid _ hacc hres; exact Or.inl ⟨hres, hacc⟩
  | cons u g' ih =>
      intro acc tid hnodup hacc hres
      have hnodup' : (g'.map (fun t => t.id)).Nodup :=
        (List.nodup_cons.mp (by simpa using hnodup)).2
      rw [List.foldl_cons]
      by_cases hid : u.id = tid
      · have hg' : ∀ v ∈ g', v.id ≠ tid := by
          intro v hv hveq
          have hmem : u.id ∈ g'.map (fun t => t.id) :=
            List.mem_map.mpr ⟨v, hv, by rw [hveq, hid]⟩
          exact (List.nodup_cons.mp (by simpa using hnodup)).1 hmem
        by_cases hsk : (skipCheck acc.1.results u).isEmpty
        · have hs : scanStep acc u = (acc.1, acc.2 ++ [u]) := by
            unfold scanStep; rw [if_pos hsk]
          rw [hs]
          exact Or.inr (Or.inr ⟨u,
            scanFold_ready_mono g' _ u (List.mem_append_right _ (List.mem_singleton.mpr rfl)),
            hid⟩)
        · have hs : scanStep acc u =
              (⟨acc.1.store, assocSet acc.1.results u.id (skipEntry (skipCheck acc.1.results u)),
                acc.1.statusCalls, acc.1.startLog⟩, acc.2) := by
            unfold scanStep; rw [if_neg hsk]
          rw [hs]
          refine Or.inr (Or.inl ⟨skipCheck acc.1.results u, ?_, ?_⟩)
          · rw [scanFold_frame_ne g' _ tid hg']
            show assocFind (assocSet acc.1.results u.id _) tid = _
            rw [← hid]
            exact assocFind_set_self _ _ _
          · intro v hv
            rcases scanFold_ready_sub g' _ v hv with h | h
            · exact hacc v h
            · exact hg' v h
      · by_cases hsk : (skipCheck acc.1.results u).isEmpty
        · have hs : scanStep acc u = (acc.1, acc.2 ++ [u]) := by
            unfold scanStep; rw [if_pos hsk]
          rw [hs]
          refine ih _ tid hnodup' ?_ hres
          intro v hv
          rcases List.mem_append.mp hv with h | h
          · exact hacc v h
          · rw [List.mem_singleton.mp h]
            exact fun hh => hid hh
        · have hs : scanStep acc u =
              (⟨acc.1.store, assocSet acc.1.results u.id (skipEntry (skipCheck acc.1.results u)),
                acc.1.statusCalls, acc.1.startLog⟩, acc.2) := by
            unfold scanStep; rw [if_neg hsk]
          rw [hs]
          refine ih _ tid hnodup' hacc ?_
          show assocFind (assocSet acc.1.results u.id _) tid = none
          rw [assocFind_set_ne _ _ _ _ (fun hh => hid hh.symm)]
          exact hres


theorem runGroups_skip_aux (now : String) (oracle : String → Bool × String) :
    ∀ (groups : List (List Task)) (st : RunState) (tid : String),
    ((groups.flatten).map (fun t => t.id)).Nodup →
    assocFind st.results tid = none →
    (∀ c ∈ st.statusCalls, c.1 ≠ tid) →
    ∀ r, assocFind (runGroups now oracle st groups).results tid = some r →
      strStartsWith r "⏭️" = true →
      (∀ c ∈ (runGroups now oracle st groups).statusCalls, c.1 ≠ tid) ∧
      getTask (runGroups now oracle st groups).store tid = getTask st.store tid := by
  intro groups
  induction groups with
  | nil =>
      intro st tid _ hres _ r hr _
      rw [show runGroups now oracle st [] = st from rfl] at hr
      rw [hres] at hr
      cases hr
  | cons g gs ih =>
      intro st tid hnodup hres hsc r hr hmark
      have hflat : ((g :: gs).flatten).map (fun t => t.id) =
          g.map (fun t => t.id) ++ (gs.flatten).map (fun t => t.id) := by
        rw [List.flatten_cons, List.map_append]
      rw [hflat] at hnodup
      have hnodup_gs : ((gs.flatten).map (fun t => t.id)).Nodup :=
        List.Nodup.of_append_right hnodup
      have hstep : runGroups now oracle st (g :: gs) =
          runGroups now oracle (runGroup now oracle st g) gs := rfl
      rw [hstep] at hr ⊢
      by_cases hmem : ∃ u ∈ g, u.id = tid
      · obtain ⟨u0, hu0, hu0id⟩ := hmem
        have htid_g : tid ∈ g.map (fun t => t.id) := List.mem_map.mpr ⟨u0, hu0, hu0id⟩
        have hne_gs : ∀ g' ∈ gs, ∀ v ∈ g', v.id ≠ tid := by
          intro g' hg' v hv hveq
          have : tid ∈ (gs.flatten).map (fun t => t.id) :=
            List.mem_map.mpr ⟨v, List.mem_flatten.mpr ⟨g', hg', hv⟩, hveq⟩
          exact (List.disjoint_of_nodup_append hnodup) htid_g this
        obtain ⟨f1, f2, f3⟩ := runGroups_frame_ne now oracle gs
          (runGroup now oracle st g) tid hne_gs
        have hnodup_g : (g.map (fun t => t.id)).Nodup := List.Nodup.of_append_left hnodup
        have hrgroup : runGroup now oracle st g =
            ((g.foldl scanStep (st, [])).2.foldl (executeOne now oracle)
              (g.foldl scanStep (st, [])).1) := rfl
        obtain ⟨s1, s2, s3⟩ := scanFold_frame g (st, [])
        rcases scanFold_tid g (st, []) tid hnodup_g (by intro u hu; cases hu) hres with
          ⟨hn, hrdy⟩ | ⟨fd, hskipr, hrdy⟩ | ⟨u, hu, huid⟩
        · exfalso
          obtain ⟨e1, -, -⟩ := execFold_frame_ne now oracle
            (g.foldl scanStep (st, [])).2 (g.foldl scanStep (st, [])).1 tid hrdy
          have : assocFind (runGroup now oracle st g).results tid = none := by
            rw [hrgroup]; rw [e1]; exact hn
          rw [f1, this] at hr
          cases hr
        · obtain ⟨e1, e2, e3⟩ := execFold_frame_ne now oracle
            (g.foldl scanStep (st, [])).2 (g.foldl scanStep (st, [])).1 tid hrdy
          have hsc1 : ∀ c ∈ (runGroup now oracle st g).statusCalls, c.1 ≠ tid := by
            intro c hc
            rw [hrgroup] at hc
            rcases e3 c hc with h1 | h1
            · rw [s2] at h1; exact hsc c h1
            · exact h1
          have hst1 : getTask (runGroup now oracle st g).store tid = getTask st.store tid := by
            rw [hrgroup, e2, s1]
          refine ⟨?_, ?_⟩
          · intro c hc
            rcases f3 c hc with h1 | h1
            · exact hsc1 c h1
            · exact h1
          · rw [f2, hst1]
        · exfalso
          obtain ⟨r', hr', hns⟩ := execFold_terminal now oracle
            (g.foldl scanStep (st, [])).2 (g.foldl scanStep (st, [])).1 tid
            (Or.inl ⟨u, hu, huid⟩)
          have : assocFind (runGroup now oracle st g).results tid = some r' := by
            rw [hrgroup]; exact hr'
          rw [f1, this] at hr
          injection hr with hre
          rw [hre] at hns
          rw [hmark] at hns
          cases hns
      · have hne_g : ∀ u ∈ g, u.id ≠ tid := fun u hu hh => hmem ⟨u, hu, hh⟩
        obtain ⟨r1, r2, r3⟩ := runGroup_frame_ne now oracle st g tid hne_g
        have hres1 : assocFind (runGroup now oracle st g).results tid = none :=
          r1.trans hres
        have hsc1 : ∀ c ∈ (runGroup now oracle st g).statusCalls, c.1 ≠ tid := by
          intro c hc
          rcases r3 c hc with h1 | h1
          · exact hsc c h1
          · exact h1
        obtain ⟨c1, c2⟩ := ih (runGroup now oracle st g) tid hnodup_gs hres1 hsc1 r hr hmark
        exact ⟨c1, c2.trans r2⟩

/-- Claim C10 (confirmed).  A task skipped by the group-execution phase
because a dependency has a failed (`❌`) `results` entry never has
`set_task_status` called for it (the ghost `statusCalls` log stays free
of its id) and its stored record is entirely unchanged; the skip lives
only in the `results` map from which the returned textual summary is
built.  Stated over `runGroups` — the phase containing the skip branch
— with batches containing each task id at most once, as
`_get_execution_groups` produces. -/
theorem skip_leaves_no_trace (now : String) (oracle : String → Bool × String)
    (groups : List (List Task)) (store : TasksData) (results0 : List (String × String))
    (tid r : String)
    (hnodup : ((groups.flatten).map (fun t => t.id)).Nodup)
    (hinit : assocFind results0 tid = none)
    (hskip : assocFind (runGroups now oracle ⟨store, results0, [], []⟩ groups).results tid = some r)
    (hmark : strStartsWith r "⏭️" = true) :
    tid ∉ (runGroups now oracle ⟨store, results0, [], []⟩ groups).statusCalls.map Prod.fst ∧
    getTask (runGroups now oracle ⟨store, results0, [], []⟩ groups).store tid = getTask store tid := by
  obtain ⟨c1, c2⟩ := runGroups_skip_aux now oracle groups ⟨store, results0, [], []⟩ tid
    hnodup hinit (by intro c hc; cases hc) r hskip hmark
  constructor
  · intro hmem
    obtain ⟨c, hc, hce⟩ := List.mem_map.mp hmem
    exact c1 c hc hce
  · exact c2

/-- Witness for `skip_leaves_no_trace`: a batch whose single task
depends on `dX`, whose `results` entry is a failure. -/
theorem skip_leaves_no_trace_witness :
    (([[skipTask]].flatten).map (fun t => t.id)).Nodup ∧
    assocFind [("dX", "❌ 失败: boom")] "tA" = none ∧
    (∃ r, assocFind skipRun.results "tA" = some r ∧ strStartsWith r "⏭️" = true) ∧
    "tA" ∉ skipRun.statusCalls.map Prod.fst ∧
    getTask skipRun.store "tA" = getTask skipStore "tA" := by
  refine ⟨by decide, by decide, ⟨skipEntry ["dX"], by decide, by decide⟩, ?_⟩
  exact skip_leaves_no_trace "now" (fun _ => (true, "ok")) [[skipTask]] skipStore
    [("dX", "❌ 失败: boom")] "tA" (skipEntry ["dX"]) (by decide) (by decide) (by decide) (by decide)

end LeaderWorker
